import Mathlib

/-!
Verification of the Helios CLI agent-orchestration core.

This file shallowly embeds the agent loop of `src/chat.ts`
(`runAgentStreaming`), its supervision layer
(`src/supervision/loop-detector.ts`, `src/supervision/security-scanner.ts`,
`src/supervision/audit-logger.ts`), the permission gate
(`src/permissions.ts`), the tool registry dispatcher
(`src/tools/index.ts`, `executeTool`) and the OpenAI streaming tool-call
reconstruction (`src/providers/openai.ts`, `stream`).

Modelling conventions:
* JavaScript values travelling through the pipeline (tool arguments) are
  modelled by the inductive type `JsonV`.  `JSON.parse` / `JSON.stringify`
  are modelled by `jsonDecode` / `JsonV.encode`; numeric literals are
  modelled as integers (fractional or exponent literals are treated as
  undecodable, which no theorem below depends on).
* JavaScript regular expressions are modelled with a small Brzozowski
  derivative matcher (`Rx`); only the boolean question "does the regex
  match somewhere in the string" is needed by the embedded code.
* Effects (the interactive confirmation prompt, tool handlers, `path.resolve`)
  are oracles supplied through an explicit environment `Env`.
* The md5 step-hash of the loop detector is modelled by the hashed payload
  itself (`hashStep`); the detector only ever compares hashes for equality.
-/

set_option maxRecDepth 10000
set_option linter.unusedVariables false

namespace Helios

/-! ## Character helpers (JS `\w`, `\s`, `trim`) -/

/-- JS `\w` character class: `[A-Za-z0-9_]`. -/
def isWordChar (c : Char) : Bool :=
  (('a' ≤ c ∧ c ≤ 'z') ∨ ('A' ≤ c ∧ c ≤ 'Z') ∨ ('0' ≤ c ∧ c ≤ '9') ∨ c = '_')

/-- JS `\s` character class, restricted to the ASCII whitespace actually
occurring in model output. -/
def isSpaceJS (c : Char) : Bool :=
  c = ' ' ∨ c = '\t' ∨ c = '\n' ∨ c = '\r' ∨ c = '\x0b' ∨ c = '\x0c'

/-- ASCII lower-casing, for the case-insensitive regex flags. -/
def lowerC (c : Char) : Char :=
  if 'A' ≤ c ∧ c ≤ 'Z' then Char.ofNat (c.toNat + 32) else c

/-- `String.prototype.trim` on a character list. -/
def trimJS (l : List Char) : List Char :=
  ((l.dropWhile isSpaceJS).reverse.dropWhile isSpaceJS).reverse

def lbrace : Char := Char.ofNat 123
def rbrace : Char := Char.ofNat 125

/-- JS `String.prototype.startsWith` (on the character lists, so that it
evaluates by kernel reduction). -/
def strStartsWith (s p : String) : Bool := p.data.isPrefixOf s.data

/-! ## JSON values (`JSON.parse` / `JSON.stringify`) -/

/-- A JavaScript JSON value.  Object fields keep insertion order, matching
JS object-key enumeration order. -/
inductive JsonV : Type where
  | nul   : JsonV
  | bool  : Bool → JsonV
  | num   : Int → JsonV
  | str   : String → JsonV
  | arr   : List JsonV → JsonV
  | obj   : List (String × JsonV) → JsonV
  deriving Repr, BEq, Inhabited

namespace JsonV

/-- Property lookup `o.k` (on a non-object it is `undefined`, i.e. `none`). -/
def get : JsonV → String → Option JsonV
  | .obj fields, k => fields.lookup k
  | _, _ => none

/-- JS truthiness of a JSON value (`undefined` handled by callers). -/
def truthy : JsonV → Bool
  | .nul => false
  | .bool b => b
  | .num n => n ≠ 0
  | .str s => s ≠ ""
  | .arr _ => true
  | .obj _ => true

/-- Property assignment `o[k] = v`: overwrites in place if the key exists,
appends otherwise (JS object key-order semantics). -/
def setK : List (String × JsonV) → String → JsonV → List (String × JsonV)
  | [], k, v => [(k, v)]
  | (k', v') :: t, k, v =>
      if k' = k then (k', v) :: t else (k', v') :: setK t k v

/-- `JSON.stringify` escaping of one character. -/
def escChar (c : Char) : List Char :=
  if c = '"' then ['\\', '"']
  else if c = '\\' then ['\\', '\\']
  else if c = '\n' then ['\\', 'n']
  else if c = '\r' then ['\\', 'r']
  else if c = '\t' then ['\\', 't']
  else if c = '\x08' then ['\\', 'b']
  else if c = '\x0c' then ['\\', 'f']
  else if c.toNat < 32 then
    ['\\', 'u', '0', '0',
     (if c.toNat / 16 = 1 then '1' else '0'),
     (Nat.digitChar (c.toNat % 16))]
  else [c]

/-- `JSON.stringify` of a string literal. -/
def encodeStr (s : String) : String :=
  ⟨'"' :: (s.data.flatMap escChar) ++ ['"']⟩

mutual

/-- `JSON.stringify`. -/
def encode : JsonV → String
  | .nul => "null"
  | .bool true => "true"
  | .bool false => "false"
  | .num n => toString n
  | .str s => encodeStr s
  | .arr l => ⟨'[' :: (encodeList l).data⟩ ++ "]"
  | .obj l => ⟨lbrace :: (encodeFields l).data⟩ ++ ⟨[rbrace]⟩

def encodeList : List JsonV → String
  | [] => ""
  | [v] => encode v
  | v :: t => encode v ++ "," ++ encodeList t

def encodeFields : List (String × JsonV) → String
  | [] => ""
  | [(k, v)] => encodeStr k ++ ":" ++ encode v
  | (k, v) :: t => encodeStr k ++ ":" ++ encode v ++ "," ++ encodeFields t

end

end JsonV

/-! ### `JSON.parse` -/

/-- Result of a partial decoder: the value and the remaining input. -/
def DecRes (α : Type) := Option (α × List Char)

def skipWs (l : List Char) : List Char := l.dropWhile isSpaceJS

def hexVal (c : Char) : Option Nat :=
  if '0' ≤ c ∧ c ≤ '9' then some (c.toNat - '0'.toNat)
  else if 'a' ≤ c ∧ c ≤ 'f' then some (c.toNat - 'a'.toNat + 10)
  else if 'A' ≤ c ∧ c ≤ 'F' then some (c.toNat - 'A'.toNat + 10)
  else none

/-- Decode the body of a JSON string literal (after the opening quote). -/
def decodeStrBody (fuel : Nat) (l : List Char) : DecRes (List Char) :=
  match fuel, l with
  | 0, _ => none
  | _, [] => none
  | fuel + 1, c :: rest =>
    if c = '"' then some ([], rest)
    else if c = '\\' then
      match rest with
      | [] => none
      | e :: rest' =>
        let cont (ch : Char) (r : List Char) : DecRes (List Char) :=
          match decodeStrBody fuel r with
          | some (tl, rem) => some (ch :: tl, rem)
          | none => none
        if e = '"' then cont '"' rest'
        else if e = '\\' then cont '\\' rest'
        else if e = '/' then cont '/' rest'
        else if e = 'b' then cont '\x08' rest'
        else if e = 'f' then cont '\x0c' rest'
        else if e = 'n' then cont '\n' rest'
        else if e = 'r' then cont '\r' rest'
        else if e = 't' then cont '\t' rest'
        else if e = 'u' then
          match rest' with
          | h1 :: h2 :: h3 :: h4 :: rest'' =>
            match hexVal h1, hexVal h2, hexVal h3, hexVal h4 with
            | some a, some b, some c', some d =>
              let n := ((a * 16 + b) * 16 + c') * 16 + d
              if 0xd800 ≤ n ∧ n ≤ 0xdfff then none
              else cont (Char.ofNat n) rest''
            | _, _, _, _ => none
          | _ => none
        else none
    else if c.toNat < 32 then none
    else
      match decodeStrBody fuel rest with
      | some (tl, rem) => some (c :: tl, rem)
      | none => none

def isDigit (c : Char) : Bool := '0' ≤ c ∧ c ≤ '9'

/-- Decode a JSON integer literal.  Fractional / exponent parts make the
decode fail (see the modelling note at the top of the file). -/
def decodeNum (l : List Char) : DecRes Int :=
  let (neg, l') := match l with
    | '-' :: t => (true, t)
    | _ => (false, l)
  match l' with
  | [] => none
  | c :: _ =>
    if !isDigit c then none
    else
      let digits := l'.takeWhile isDigit
      let rest := l'.dropWhile isDigit
      if digits.length > 1 ∧ digits.headD '0' = '0' then none
      else
        match rest with
        | '.' :: _ => none
        | 'e' :: _ => none
        | 'E' :: _ => none
        | _ =>
          let n : Nat := digits.foldl (fun a c => a * 10 + (c.toNat - '0'.toNat)) 0
          some ((if neg then -(n : Int) else (n : Int)), rest)

mutual

/-- Decode one JSON value (leading whitespace already skipped). -/
def decodeVal (fuel : Nat) (l : List Char) : DecRes JsonV :=
  match fuel with
  | 0 => none
  | fuel + 1 =>
    match l with
    | [] => none
    | c :: rest =>
      if c = '"' then
        match decodeStrBody (rest.length + 1) rest with
        | some (body, rem) => some (.str ⟨body⟩, rem)
        | none => none
      else if c = lbrace then
        let rest' := skipWs rest
        match rest' with
        | d :: rest'' =>
          if d = rbrace then some (.obj [], rest'')
          else
            match decodeMembers fuel rest' [] with
            | some (fs, rem) => some (.obj fs, rem)
            | none => none
        | [] => none
      else if c = '[' then
        let rest' := skipWs rest
        match rest' with
        | ']' :: rest'' => some (.arr [], rest'')
        | _ =>
          match decodeElems fuel rest' with
          | some (vs, rem) => some (.arr vs, rem)
          | none => none
      else if c = 't' then
        match l with
        | 't' :: 'r' :: 'u' :: 'e' :: rem => some (.bool true, rem)
        | _ => none
      else if c = 'f' then
        match l with
        | 'f' :: 'a' :: 'l' :: 's' :: 'e' :: rem => some (.bool false, rem)
        | _ => none
      else if c = 'n' then
        match l with
        | 'n' :: 'u' :: 'l' :: 'l' :: rem => some (.nul, rem)
        | _ => none
      else
        match decodeNum l with
        | some (n, rem) => some (.num n, rem)
        | none => none

/-- Decode `"k": v (, "k": v)*` object members; duplicate keys overwrite in
place as in JS. -/
def decodeMembers (fuel : Nat) (l : List Char) (acc : List (String × JsonV)) :
    DecRes (List (String × JsonV)) :=
  match fuel with
  | 0 => none
  | fuel + 1 =>
    match l with
    | '"' :: rest =>
      match decodeStrBody (rest.length + 1) rest with
      | some (key, rem) =>
        match skipWs rem with
        | ':' :: rem' =>
          match decodeVal fuel (skipWs rem') with
          | some (v, rem'') =>
            let acc' := JsonV.setK acc ⟨key⟩ v
            match skipWs rem'' with
            | ',' :: rem''' => decodeMembers fuel (skipWs rem''') acc'
            | r =>
              match r with
              | d :: rem''' => if d = rbrace then some (acc', rem''') else none
              | [] => none
          | none => none
        | _ => none
      | none => none
    | _ => none

/-- Decode `v (, v)*` array elements. -/
def decodeElems (fuel : Nat) (l : List Char) : DecRes (List JsonV) :=
  match fuel with
  | 0 => none
  | fuel + 1 =>
    match decodeVal fuel l with
    | some (v, rem) =>
      match skipWs rem with
      | ',' :: rem' =>
        match decodeElems fuel (skipWs rem') with
        | some (vs, rem'') => some (v :: vs, rem'')
        | none => none
      | ']' :: rem' => some ([v], rem')
      | _ => none
    | none => none

end

/-- `JSON.parse`: decode a whole string (trailing whitespace allowed,
trailing garbage rejected). -/
def jsonDecode (s : String) : Option JsonV :=
  match decodeVal (s.length + 1) (skipWs s.data) with
  | some (v, rem) => if skipWs rem = [] then some v else none
  | none => none

end Helios

namespace Helios

/-! ## A boolean regex matcher (Brzozowski derivatives)

The embedded code only ever asks whether a JS regex matches somewhere in a
string (`regex.test(s)` / `s.match(regex) !== null`), so a boolean matcher
suffices; greedy/lazy distinctions do not change match existence. -/

inductive Rx : Type where
  | emp  : Rx
  | eps  : Rx
  | cls  : (Char → Bool) → Rx
  | seq  : Rx → Rx → Rx
  | alt  : Rx → Rx → Rx
  | star : Rx → Rx

namespace Rx

def nullable : Rx → Bool
  | .emp => false
  | .eps => true
  | .cls _ => false
  | .seq a b => nullable a ∧ nullable b
  | .alt a b => nullable a ∨ nullable b
  | .star _ => true

def deriv (r : Rx) (c : Char) : Rx :=
  match r with
  | .emp => .emp
  | .eps => .emp
  | .cls p => if p c then .eps else .emp
  | .seq a b =>
      if nullable a then .alt (.seq (deriv a c) b) (deriv b c)
      else .seq (deriv a c) b
  | .alt a b => .alt (deriv a c) (deriv b c)
  | .star a => .seq (deriv a c) (.star a)

/-- Does some prefix of `l` match `r`? -/
def matchesPrefix : Rx → List Char → Bool
  | r, [] => nullable r
  | r, c :: rest => nullable r ∨ matchesPrefix (deriv r c) rest

/-- Does `r` match somewhere inside `l` (JS `regex.test`)? -/
def testL : Rx → List Char → Bool
  | r, [] => nullable r
  | r, c :: rest => matchesPrefix r (c :: rest) ∨ testL r rest

/-- Like `testL`, but the match start must sit on a `\b` word boundary
(`prev` is the character before the current position). -/
def atBoundary : Option Char → Bool
  | none => true
  | some p => !isWordChar p

def testWB (r : Rx) : Option Char → List Char → Bool
  | _, [] => false
  | prev, c :: rest =>
      (atBoundary prev && matchesPrefix r (c :: rest)) || testWB r (some c) rest

def test (r : Rx) (s : String) : Bool := testL r s.data

def testB (r : Rx) (s : String) : Bool := testWB r none s.data

/-- Sequence of a list of regexes. -/
def seqL : List Rx → Rx
  | [] => .eps
  | [r] => r
  | r :: t => .seq r (seqL t)

/-- Case-insensitive literal character. -/
def lci (c : Char) : Rx := .cls (fun d => lowerC d = lowerC c)

/-- Case-insensitive literal string. -/
def lciStr (s : String) : Rx := seqL (s.data.map lci)

/-- Case-sensitive literal string. -/
def litStr (s : String) : Rx := seqL (s.data.map (fun c => .cls (· = c)))

def ws0 : Rx := .star (.cls isSpaceJS)
def ws1 : Rx := .seq (.cls isSpaceJS) ws0
/-- JS `.` (no newline). -/
def dotC : Rx := .cls (fun c => c ≠ '\n' ∧ c ≠ '\r')
def dotStar : Rx := .star dotC
def opt (r : Rx) : Rx := .alt .eps r
def plus (r : Rx) : Rx := .seq r (.star r)

end Rx

/-! ## Security scanner (`src/supervision/security-scanner.ts`) -/

inductive Severity : Type where
  | critical | high | medium | low
  deriving Repr, BEq, DecidableEq, Inhabited

/-- One reported issue.  The `pattern` field of the source (`matches[0]`
for `scan`, the whole command for `scanCommand`) is not consulted by any
caller or claim and is omitted from the model. -/
structure SecIssue where
  severity : Severity
  message : String
  suggestion : String
  deriving Repr, BEq, DecidableEq, Inhabited

structure ScanResult where
  approved : Bool
  issues : List SecIssue
  deriving Repr, BEq, DecidableEq, Inhabited

/-- The `DANGEROUS_PATTERNS` table: matcher, severity, message, suggestion,
in source order. -/
def dangerousPatterns : List ((String → Bool) × Severity × String × String) :=
  [ (Rx.testB (.seq (Rx.lciStr "eval") (.seq Rx.ws0 (.cls (· = '(')))),
     .critical, "eval() can execute arbitrary code",
     "Use JSON.parse() for data or Function constructor with caution"),
    (Rx.test (Rx.seqL [Rx.lciStr "child_process.exec", Rx.ws0, .cls (· = '('),
        .star (.cls (· ≠ ')')), .cls (· = '$'), .cls (· = lbrace)]),
     .critical, "Command injection vulnerability",
     "Use execFile() with array arguments instead"),
    (Rx.test (Rx.seqL [Rx.lciStr "innerHTML", Rx.ws0, .cls (· = '='), Rx.ws0,
        .star (.cls (· ≠ ';')), .cls (· = '+')]),
     .critical, "XSS vulnerability via innerHTML",
     "Use textContent or sanitize HTML input"),
    (Rx.test (Rx.seqL [Rx.lciStr "SELECT", Rx.ws1, Rx.dotStar, Rx.ws1,
        Rx.lciStr "FROM", Rx.ws1, Rx.dotStar, Rx.ws1,
        Rx.lciStr "WHERE", Rx.ws1, Rx.dotStar, .cls (· = '+')]),
     .high, "Potential SQL injection",
     "Use parameterized queries or prepared statements"),
    (Rx.test (Rx.seqL [Rx.lciStr "document.write", Rx.ws0, .cls (· = '(')]),
     .high, "document.write() is dangerous and deprecated",
     "Use DOM manipulation methods instead"),
    (Rx.test (Rx.seqL [Rx.lciStr "new", Rx.ws1, Rx.lciStr "Function", Rx.ws0,
        .cls (· = '(')]),
     .high, "Dynamic function creation can be dangerous",
     "Consider safer alternatives or strict input validation"),
    (Rx.test (Rx.seqL [Rx.lciStr "console.",
        .alt (Rx.lciStr "log") (Rx.lciStr "debug"), Rx.ws0, .cls (· = '(')]),
     .low, "Console statements in production code",
     "Remove or use proper logging library"),
    (Rx.test (Rx.seqL [Rx.lciStr "password", Rx.ws0,
        .cls (fun c => c = ':' ∨ c = '='), Rx.ws0,
        .cls (fun c => c = '"' ∨ c = '\''),
        Rx.plus (.cls (fun c => c ≠ '"' ∧ c ≠ '\'')),
        .cls (fun c => c = '"' ∨ c = '\'')]),
     .high, "Hardcoded password detected",
     "Use environment variables for secrets"),
    (Rx.test (Rx.seqL [Rx.lciStr "api", Rx.opt (.cls (fun c => c = '_' ∨ c = '-')),
        Rx.lciStr "key", Rx.ws0, .cls (fun c => c = ':' ∨ c = '='), Rx.ws0,
        .cls (fun c => c = '"' ∨ c = '\''),
        Rx.plus (.cls (fun c => c ≠ '"' ∧ c ≠ '\'')),
        .cls (fun c => c = '"' ∨ c = '\'')]),
     .high, "Hardcoded API key detected",
     "Use environment variables for API keys"),
    (Rx.test (Rx.lciStr "dangerouslySetInnerHTML"),
     .medium, "React dangerouslySetInnerHTML usage",
     "Ensure HTML is sanitized before rendering"),
    (Rx.test (.alt (Rx.lciStr "TODO") (.alt (Rx.lciStr "FIXME")
        (.alt (Rx.lciStr "HACK") (Rx.lciStr "XXX")))),
     .low, "Unresolved TODO/FIXME comment",
     "Address the issue or create a tracking ticket")]

def sevRank : Severity → Nat
  | .critical => 0 | .high => 1 | .medium => 2 | .low => 3

/-- JS `Array.prototype.sort` is stable, so sorting by severity rank equals
concatenating the rank groups in table order. -/
def sortBySeverity (l : List SecIssue) : List SecIssue :=
  (l.filter (fun i => sevRank i.severity = 0)) ++
  (l.filter (fun i => sevRank i.severity = 1)) ++
  (l.filter (fun i => sevRank i.severity = 2)) ++
  (l.filter (fun i => sevRank i.severity = 3))

/-- `SecurityScanner.scan`. -/
def scan (code : String) : ScanResult :=
  let issues := dangerousPatterns.filterMap (fun p =>
    if p.1 code then some ⟨p.2.1, p.2.2.1, p.2.2.2⟩ else none)
  let issues := sortBySeverity issues
  let approved := !(issues.any (fun i => i.severity = .critical ∨ i.severity = .high))
  ⟨approved, issues⟩

/-- The `dangerousCommands` table of `scanCommand`: matcher and message.
The fork-bomb regex `/:(){ :|:& };:/i` contains an empty group and a
top-level alternation, so it denotes `:{ :` or `:& };:`. -/
def dangerousCommands : List ((String → Bool) × String) :=
  [ (Rx.test (Rx.seqL [Rx.lciStr "rm", Rx.ws1, Rx.lciStr "-rf", Rx.ws1,
        .cls (· = '/')]), "Dangerous recursive delete on root"),
    (Rx.test (Rx.seqL [Rx.lciStr "rm", Rx.ws1, Rx.lciStr "-rf", Rx.ws1,
        .cls (· = '*')]), "Recursive delete with wildcard"),
    (Rx.test (.alt (Rx.litStr ⟨[':', lbrace, ' ', ':']⟩)
        (Rx.litStr ⟨[':', '&', ' ', rbrace, ';', ':']⟩)), "Fork bomb detected"),
    (Rx.test (Rx.lciStr "mkfs."), "Filesystem format command"),
    (Rx.test (Rx.seqL [Rx.lciStr "dd", Rx.ws1, Rx.lciStr "if=", Rx.dotStar,
        Rx.lciStr "of=/dev"]), "Direct disk write"),
    (Rx.test (Rx.seqL [.cls (· = '>'), Rx.ws0, Rx.lciStr "/dev/sda"]),
     "Writing to disk device"),
    (Rx.test (Rx.seqL [Rx.lciStr "chmod", Rx.ws1, Rx.lciStr "-R", Rx.ws1,
        Rx.lciStr "777"]), "Overly permissive chmod")]

/-- `SecurityScanner.scanCommand`. -/
def scanCommand (command : String) : ScanResult :=
  let issues := dangerousCommands.filterMap (fun dc =>
    if dc.1 command then
      some ⟨.critical, dc.2, "This command is blocked for safety"⟩ else none)
  ⟨issues.isEmpty, issues⟩

end Helios

namespace Helios

/-! ## Loop detector (`src/supervision/loop-detector.ts`) -/

inductive Risk : Type where
  | low | medium | high
  deriving Repr, BEq, DecidableEq, Inhabited

/-- A history entry.  The source also stores a timestamp that is never read
by any logic; it is omitted. -/
structure StepRecord where
  hash : String
  action : String
  deriving Repr, BEq, DecidableEq, Inhabited

structure LDState where
  history : List StepRecord
  consecutiveRepeats : Nat
  deriving Repr, BEq, DecidableEq, Inhabited

def LDState.init : LDState := ⟨[], 0⟩

structure LDResult where
  isLoop : Bool
  risk : Risk
  message : String
  deriving Repr, BEq, DecidableEq, Inhabited

def maxHistory : Nat := 20

/-- The md5 step hash `hashStep(action, args)`, modelled by the hashed
payload `JSON.stringify({action, args})` itself. -/
def hashStep (action : String) (args : JsonV) : String :=
  JsonV.encode (.obj [("action", .str action), ("args", args)])

/-- `detectOscillation`: A-B-A-B over the last four recorded actions. -/
def detectOscillation (history : List StepRecord) : Bool :=
  if history.length < 4 then false
  else
    match history.drop (history.length - 4) with
    | [a, b, c, d] => a.action = c.action ∧ b.action = d.action ∧ a.action ≠ b.action
    | _ => false

/-- The consecutive-repeat counter update: incremented when the step hash
equals the hash of the last recorded step, reset to 0 otherwise. -/
def nextConsec (hash : String) (st : LDState) : Nat :=
  if st.history ≠ [] ∧ (st.history.getLast?.map StepRecord.hash) = some hash
  then st.consecutiveRepeats + 1 else 0

/-- The history update: append the step, evicting the oldest entry past
`maxHistory`. -/
def nextHistory (hash action : String) (st : LDState) : List StepRecord :=
  let hist := st.history ++ [⟨hash, action⟩]
  if hist.length > maxHistory then hist.tail else hist

/-- `LoopDetector.check`, factored through the already-computed step hash
(the source computes `hash = this.hashStep(action, args)` first). -/
def checkH (hash action : String) (st : LDState) : LDResult × LDState :=
  let consec := nextConsec hash st
  let hist := nextHistory hash action st
  let st' : LDState := ⟨hist, consec⟩
  (if consec ≥ 2 then
    ⟨true, .high, "Loop detected: \"" ++ action ++ "\" repeated " ++
        toString (consec + 1) ++ " times consecutively"⟩
  else
    let sameActionCount := (hist.filter (fun h => h.action = action)).length
    if sameActionCount ≥ 5 then
      ⟨true, .medium, "Potential loop: \"" ++ action ++ "\" called " ++
          toString sameActionCount ++ " times recently"⟩
    else if detectOscillation hist then
      ⟨true, .medium, "Oscillation pattern detected: alternating between two actions"⟩
    else
      ⟨false, .low, ""⟩, st')

/-- `LoopDetector.check`. -/
def ldCheck (action : String) (args : JsonV) (st : LDState) : LDResult × LDState :=
  checkH (hashStep action args) action st

/-! ## Permission gate (`src/permissions.ts`) -/

def dangerousTools : List String :=
  ["write_file", "edit_file", "delete_file", "rename_file", "create_directory",
   "run_command", "git_commit", "git_reset", "git_rebase", "docker_run",
   "vercel_deploy", "railway_deploy", "fly_deploy", "install_package",
   "uninstall_package", "prisma_migrate"]

/-- `SAFE_PATTERNS.some(p => p.test(name))`: the anchored safe-name regexes. -/
def isSafeTool (name : String) : Bool :=
  strStartsWith name "read_" || strStartsWith name "list_" ||
  strStartsWith name "search_" || strStartsWith name "find_" ||
  name == "git_status" || name == "git_log" || name == "git_diff" ||
  name == "git_branch" || name == "docker_ps" || name == "docker_logs"

def isDangerousTool (name : String) : Bool :=
  dangerousTools.contains name && !isSafeTool name

structure PermState where
  autoApprove : Bool
  approvedThisSession : List String
  deriving Repr, BEq, DecidableEq, Inhabited

def createPermissionState : PermState := ⟨false, []⟩

structure PermDecision where
  approved : Bool
  reason : Option String
  deriving Repr, BEq, DecidableEq, Inhabited

/-- `checkPermission`.  The interactive `confirm` prompt is an oracle: if the
gate reaches the prompt, the user answers `answer`.  The third component
reports whether the prompt was shown. -/
def checkPermission (name : String) (args : JsonV) (st : PermState)
    (answer : Bool) : PermDecision × PermState × Bool :=
  if isSafeTool name then (⟨true, none⟩, st, false)
  else if st.autoApprove then (⟨true, none⟩, st, false)
  else
    let actionKey := name ++ ":" ++ JsonV.encode args
    if st.approvedThisSession.contains actionKey then (⟨true, none⟩, st, false)
    else if !isDangerousTool name then (⟨true, none⟩, st, false)
    else
      let st' := if answer then
          { st with approvedThisSession := st.approvedThisSession ++ [actionKey] }
        else st
      (⟨answer, if answer then none else some "User denied permission"⟩, st', true)

/-- `toggleAutoApprove`. -/
def toggleAutoApprove (st : PermState) : PermState × Bool :=
  ({ st with autoApprove := !st.autoApprove }, !st.autoApprove)

end Helios

namespace Helios

/-! ## Streaming tool-call reconstruction (`src/providers/openai.ts`, `stream`)

The SSE transport is modelled from the point where a `data:` payload line
has been isolated: each element of the event list is either the `[DONE]`
sentinel, a parsed delta object, or an unparseable payload (skipped by the
source's `catch`).  `Date.now()` for legacy `function_call` ids is the
oracle `now`. -/

/-- A reconstructed (or in-flight) tool call. -/
structure ToolCallRec where
  id : String
  name : String
  arguments : String
  deriving Repr, BEq, DecidableEq, Inhabited

/-- One entry of a `delta.tool_calls` array. -/
structure DeltaTC where
  id : Option String
  name : Option String
  arguments : Option String
  deriving Repr, BEq, DecidableEq, Inhabited

/-- A legacy `delta.function_call` fragment. -/
structure DeltaFC where
  name : Option String
  arguments : Option String
  deriving Repr, BEq, DecidableEq, Inhabited

inductive SSEvent : Type where
  | doneMark : SSEvent
  | delta (content : Option String) (toolCalls : List DeltaTC)
      (functionCall : Option DeltaFC) : SSEvent
  | junk : SSEvent
  deriving Repr, BEq, Inhabited

inductive StreamChunk : Type where
  | text (content : String) : StreamChunk
  | toolCall (tc : ToolCallRec) : StreamChunk
  | errorC (e : String) : StreamChunk
  | doneC : StreamChunk
  deriving Repr, BEq, DecidableEq, Inhabited

/-- JS truthiness of an optional string (`undefined` and `''` are falsy). -/
def otruthy : Option String → Bool
  | none => false
  | some s => s ≠ ""

/-- Process one `delta.tool_calls` entry. -/
def stepTC (cur : Option ToolCallRec) (tc : DeltaTC) :
    List StreamChunk × Option ToolCallRec :=
  if otruthy tc.id then
    ((match cur with | some c => [.toolCall c] | none => []),
     some ⟨tc.id.getD "", tc.name.getD "", tc.arguments.getD ""⟩)
  else
    match cur with
    | some c =>
        ([], some { c with
            name := c.name ++ (if otruthy tc.name then tc.name.getD "" else ""),
            arguments := c.arguments ++
              (if otruthy tc.arguments then tc.arguments.getD "" else "") })
    | none => ([], none)

def stepTCs (cur : Option ToolCallRec) : List DeltaTC →
    List StreamChunk × Option ToolCallRec
  | [] => ([], cur)
  | tc :: rest =>
      let (out, cur') := stepTC cur tc
      let (out', cur'') := stepTCs cur' rest
      (out ++ out', cur'')

/-- Process a legacy `delta.function_call` fragment. -/
def stepFC (now : Nat) (cur : Option ToolCallRec) : Option DeltaFC →
    List StreamChunk × Option ToolCallRec
  | none => ([], cur)
  | some fc =>
      let (out, cur') :=
        if otruthy fc.name then
          ((match cur with | some c => [.toolCall c] | none => []),
           some ⟨"fc_" ++ toString now, fc.name.getD "", ""⟩)
        else ([], cur)
      if otruthy fc.arguments then
        match cur' with
        | some c => (out, some { c with arguments := c.arguments ++ fc.arguments.getD "" })
        | none => (out, cur')
      else (out, cur')

/-- The body of the SSE read loop: on `[DONE]` flush the open call and stop;
at raw end of stream yield `done` without flushing. -/
def processSSE (now : Nat) : List SSEvent → Option ToolCallRec → List StreamChunk
  | [], _ => [.doneC]
  | .doneMark :: _, cur =>
      (match cur with | some c => [.toolCall c] | none => []) ++ [.doneC]
  | .junk :: rest, cur => processSSE now rest cur
  | .delta content tcs fc :: rest, cur =>
      let textOut := if otruthy content then [StreamChunk.text (content.getD "")] else []
      let (out1, cur1) := stepTCs cur tcs
      let (out2, cur2) := stepFC now cur1 fc
      textOut ++ out1 ++ out2 ++ processSSE now rest cur2

/-- `OpenAIProvider.stream`, from the chunk-reassembly point on. -/
def streamChunks (now : Nat) (events : List SSEvent) : List StreamChunk :=
  processSSE now events none

/-! ## Fallback tool-call parsing chain (`src/chat.ts` 848-969) -/

/-- The names of the local tool registry (`tools` from `src/tools/index.ts`:
file, git, shell, npm, cloud, utils, ai and browser tool modules). -/
def toolNames : List String :=
  ["read_file", "write_file", "edit_file", "append_file", "delete_file",
   "rename_file", "copy_file", "move_file", "create_directory",
   "list_directory", "file_tree", "file_stats", "file_diff", "search_files",
   "find_files", "find_and_replace_all", "semantic_search",
   "docker_build", "docker_run", "docker_compose_up", "docker_compose_down",
   "docker_ps", "docker_logs", "vercel_deploy", "railway_deploy",
   "fly_deploy", "create_dockerfile",
   "git_status", "git_diff", "git_commit", "git_log", "git_branch",
   "git_stash", "git_undo", "git_rebase", "git_cherry_pick", "git_blame",
   "git_reset", "git_tag",
   "run_command",
   "install_package", "uninstall_package", "list_packages", "run_script",
   "npm_init", "audit_packages", "check_outdated",
   "json_format", "regex_test", "uuid_generate", "hash_text", "timestamp",
   "calc",
   "generate_test", "explain_code", "fix_error", "convert_code",
   "generate_readme", "add_documentation", "suggest_improvements",
   "verify_ui",
   "browser_open", "browser_screenshot", "browser_scrape", "browser_click",
   "browser_fill", "browser_submit", "browser_wait", "browser_evaluate",
   "browser_pdf", "browser_links", "browser_table", "browser_test",
   "browser_lighthouse", "browser_report", "browser_autofix"]

/-- A pending tool call as collected by the agent loop. -/
structure PendingCall where
  id : String
  name : String
  arguments : String
  deriving Repr, BEq, DecidableEq, Inhabited

/-- JS `String.prototype.includes`. -/
def strIncludes (s sub : String) : Bool :=
  s.data.tails.any (fun t => sub.data.isPrefixOf t)

/-- First pass of the fence stripper: `replace(/```[a-z]*\n?/gi, '')`. -/
def stripFences1 : Nat → List Char → List Char
  | 0, l => l
  | _ + 1, [] => []
  | fuel + 1, c :: rest =>
    if ("```".data).isPrefixOf (c :: rest) then
      let r1 := (rest.drop 2).dropWhile (fun d => 'a' ≤ lowerC d ∧ lowerC d ≤ 'z')
      stripFences1 fuel (if r1.headD ' ' = '\n' then r1.tail else r1)
    else c :: stripFences1 fuel rest

/-- Second pass: `replace(/```/g, '')`. -/
def stripFences2 : Nat → List Char → List Char
  | 0, l => l
  | _ + 1, [] => []
  | fuel + 1, c :: rest =>
    if ("```".data).isPrefixOf (c :: rest) then stripFences2 fuel (rest.drop 2)
    else c :: stripFences2 fuel rest

/-- All matches of `/(\w+)\(([\s\S]*?)\)/g`: a word, an opening paren, and
the (lazy) span up to the first closing paren. -/
def findTextCalls : Nat → List Char → List (String × List Char)
  | 0, _ => []
  | fuel + 1, [] => []
  | fuel + 1, c :: rest =>
    if isWordChar c then
      let w := (c :: rest).takeWhile isWordChar
      let r1 := (c :: rest).dropWhile isWordChar
      match r1 with
      | '(' :: r2 =>
        let inside := r2.takeWhile (· ≠ ')')
        match r2.dropWhile (· ≠ ')') with
        | ')' :: r3 => (⟨w⟩, inside) :: findTextCalls fuel r3
        | _ => findTextCalls fuel rest
      | _ => findTextCalls fuel rest
    else findTextCalls fuel rest

/-- All matches of `/"([\s\S]*?)"|'([\s\S]*?)'/g` over the raw argument
text, as pushed by `strings.push(sMatch[1] || sMatch[2])`: an empty
double-quoted capture pushes `undefined` (here `none`), an empty
single-quoted capture pushes `''`. -/
def extractStrings : Nat → List Char → List (Option String)
  | 0, _ => []
  | fuel + 1, [] => []
  | fuel + 1, c :: rest =>
    if c = '"' ∨ c = '\'' then
      let body := rest.takeWhile (· ≠ c)
      match rest.dropWhile (· ≠ c) with
      | _ :: r2 =>
          (if c = '"' ∧ body.isEmpty then none else some ⟨body⟩) ::
            extractStrings fuel r2
      | [] => extractStrings fuel rest
    else extractStrings fuel rest

/-- The positional argument mapping of the textual fallback.  `none` values
are JS `undefined` entries. -/
def textArgsFor (toolName : String) (strs : List (Option String)) :
    List (String × Option String) :=
  if toolName = "write_file" ∧ strs.length ≥ 2 then
    [("path", strs.getD 0 none), ("content", strs.getD 1 none)]
  else if toolName = "read_file" ∧ strs.length ≥ 1 then
    [("path", strs.getD 0 none)]
  else if toolName = "edit_file" ∧ strs.length ≥ 3 then
    [("path", strs.getD 0 none), ("search", strs.getD 1 none),
     ("replace", strs.getD 2 none)]
  else if toolName = "run_command" ∧ strs.length ≥ 1 then
    [("command", strs.getD 0 none)]
  else []

/-- `JSON.stringify` of an object literal possibly holding `undefined`
values (which stringify drops, while `Object.keys` still counts them). -/
def encodeObjU (fields : List (String × Option String)) : String :=
  JsonV.encode (.obj (fields.filterMap (fun kv => kv.2.map (fun s => (kv.1, .str s)))))

/-- Fallback 1: textual tool calls (`src/chat.ts` 854-899).  The
`Date.now()`/random id suffixes are modelled by the running index. -/
def stage1 (content : String) : List PendingCall :=
  let clean := stripFences2 content.data.length (stripFences1 content.data.length content.data)
  let ms := findTextCalls clean.length clean
  (ms.foldl (fun acc m =>
    let toolName := m.1
    let toolName := if toolName = "write_to_file" then "write_file" else toolName
    let toolName := if toolName = "replace_file_content" then "edit_file" else toolName
    if toolNames.contains toolName then
      let raw := trimJS m.2
      let strs := extractStrings raw.length raw
      let fields := textArgsFor toolName strs
      if fields.length > 0 then
        acc ++ [⟨"fallback_text_" ++ toString acc.length, toolName, encodeObjU fields⟩]
      else acc
    else acc) [])

end Helios

namespace Helios

/-- Split at the first occurrence of ```` ``` ````, returning the text
before it and the text after it. -/
def splitAtFence : Nat → List Char → Option (List Char × List Char)
  | 0, _ => none
  | _ + 1, [] => none
  | fuel + 1, c :: rest =>
    if ("```".data).isPrefixOf (c :: rest) then some ([], (c :: rest).drop 3)
    else
      match splitAtFence fuel rest with
      | some (b, a) => some (c :: b, a)
      | none => none

/-- The regex alternative `\{(?:[^{}]|\{[^{}]*\})*\}`: braces balanced to
depth two, ending at the first valid close.  `l` is the text after the
opening brace; returns the matched text after that brace (including the
final close) and the remainder. -/
def braceMatch : Nat → List Char → Option (List Char × List Char)
  | 0, _ => none
  | _ + 1, [] => none
  | fuel + 1, c :: rest =>
    if c = rbrace then some ([rbrace], rest)
    else if c = lbrace then
      let body := rest.takeWhile (fun d => d ≠ lbrace ∧ d ≠ rbrace)
      match rest.dropWhile (fun d => d ≠ lbrace ∧ d ≠ rbrace) with
      | d :: r3 =>
        if d = rbrace then
          match braceMatch fuel r3 with
          | some (m, after) => some (lbrace :: body ++ rbrace :: m, after)
          | none => none
        else none
      | [] => none
    else
      match braceMatch fuel rest with
      | some (m, after) => some (c :: m, after)
      | none => none

/-- A match of `/```json\s*([\s\S]*?)\s*```|\{(?:[^{}]|\{[^{}]*\})*\}/g`. -/
inductive JBlock : Type where
  | fenced (between : List Char) : JBlock
  | braced (text : List Char) : JBlock
  deriving Repr, BEq, Inhabited

def findJsonBlocks : Nat → List Char → List JBlock
  | 0, _ => []
  | _ + 1, [] => []
  | fuel + 1, c :: rest =>
    if ("```json".data).isPrefixOf (c :: rest) then
      match splitAtFence rest.length ((c :: rest).drop 7) with
      | some (between, after) => .fenced between :: findJsonBlocks fuel after
      | none => findJsonBlocks fuel rest
    else if c = lbrace then
      match braceMatch rest.length rest with
      | some (m, after) => .braced (lbrace :: m) :: findJsonBlocks fuel after
      | none => findJsonBlocks fuel rest
    else findJsonBlocks fuel rest

/-- `a.k1 || a.k2 || ...` restricted to its use as a guard: the first
truthy field among `keys`, if any. -/
def firstTruthyKey (d : JsonV) : List String → Option JsonV
  | [] => none
  | k :: rest =>
    match d.get k with
    | some v => if v.truthy then some v else firstTruthyKey d rest
    | none => firstTruthyKey d rest

/-- Property assignment on a JSON value (a no-op on primitives, as in
non-strict JS). -/
def setField (j : JsonV) (k : String) (v : JsonV) : JsonV :=
  match j with
  | .obj fs => .obj (JsonV.setK fs k v)
  | other => other

/-- Fallback 2: embedded JSON tool blocks (`src/chat.ts` 902-936).
Stripping the fences of a fenced block (`replace(/```json\s*|\s*```/g, '')`)
amounts to trimming the between-fences text. -/
def stage2 (content : String) : List PendingCall :=
  let blocks := findJsonBlocks content.data.length content.data
  blocks.foldl (fun acc b =>
    let rawJson : String := match b with
      | .fenced between => ⟨trimJS between⟩
      | .braced text => ⟨text⟩
    match jsonDecode rawJson with
    | none => acc
    | some data =>
      match firstTruthyKey data ["action", "tool", "name"] with
      | some (.str tn) =>
        let toolName := if tn = "write_to_file" then "write_file" else tn
        if toolNames.contains toolName then
          let args := (firstTruthyKey data ["args", "arguments", "params"]).getD data
          let args := match args.get "TargetFile" with
            | some v => if v.truthy then setField args "path" v else args
            | none => args
          let args := match args.get "CodeContent" with
            | some v => if v.truthy then setField args "content" v else args
            | none => args
          acc ++ [⟨"fallback_json_" ++ toString acc.length, toolName, JsonV.encode args⟩]
        else acc
      | _ => acc) []

/-- All matches of `/<(\w+)\s*([^>]*?)\/?>/g`: tag name and raw attribute
text (one trailing `/` absorbed by `\/?`). -/
def findXmlTags : Nat → List Char → List (String × List Char)
  | 0, _ => []
  | _ + 1, [] => []
  | fuel + 1, c :: rest =>
    if c = '<' then
      let w := rest.takeWhile isWordChar
      if w.isEmpty then findXmlTags fuel rest
      else
        let r1 := rest.dropWhile isWordChar
        let r2 := r1.dropWhile isSpaceJS
        let seg := r2.takeWhile (· ≠ '>')
        match r2.dropWhile (· ≠ '>') with
        | _ :: r3 =>
            let attrs := if seg.getLast? = some '/' then seg.dropLast else seg
            (⟨w⟩, attrs) :: findXmlTags fuel r3
        | [] => []
    else findXmlTags fuel rest

/-- All matches of `/(\w+)\s*=\s*["']([\s\S]*?)["']/g`, assigned into an
argument object in match order (note the closing quote class accepts either
quote kind). -/
def extractAttrs : Nat → List Char → List (String × JsonV) → List (String × JsonV)
  | 0, _, acc => acc
  | _ + 1, [], acc => acc
  | fuel + 1, c :: rest, acc =>
    if isWordChar c then
      let w := (c :: rest).takeWhile isWordChar
      let r1 := (c :: rest).dropWhile isWordChar
      let r2 := r1.dropWhile isSpaceJS
      match r2 with
      | '=' :: r3 =>
        let r4 := r3.dropWhile isSpaceJS
        match r4 with
        | q :: r5 =>
          if q = '"' ∨ q = '\'' then
            let body := r5.takeWhile (fun d => d ≠ '"' ∧ d ≠ '\'')
            match r5.dropWhile (fun d => d ≠ '"' ∧ d ≠ '\'') with
            | _ :: r6 => extractAttrs fuel r6 (JsonV.setK acc ⟨w⟩ (.str ⟨body⟩))
            | [] => extractAttrs fuel rest acc
          else extractAttrs fuel rest acc
        | [] => extractAttrs fuel rest acc
      | _ => extractAttrs fuel rest acc
    else extractAttrs fuel rest acc

/-- Fallback 3: XML-like tags (`src/chat.ts` 939-969). -/
def stage3 (content : String) : List PendingCall :=
  let ts := findXmlTags content.data.length content.data
  ts.foldl (fun acc t =>
    let toolName := t.1
    let toolName := if toolName = "write_to_file" then "write_file" else toolName
    if toolName = "thinking" then acc
    else if toolNames.contains toolName then
      let attrsRaw := trimJS t.2
      let args := extractAttrs attrsRaw.length attrsRaw []
      if args.length > 0 then
        acc ++ [⟨"fallback_xml_" ++ toString acc.length, toolName,
                 JsonV.encode (.obj args)⟩]
      else acc
    else acc) []

/-- The fallback chain as wired in the agent loop (`src/chat.ts` 848-969):
each stage runs only while `pendingToolCalls` is still empty, each behind
its `includes` guard. -/
def recoverCalls (structured : List PendingCall) (content : String) :
    List PendingCall :=
  let pending := structured
  let pending :=
    if pending.isEmpty ∧ strIncludes content "(" then pending ++ stage1 content
    else pending
  let pending :=
    if pending.isEmpty ∧ (strIncludes content ⟨[lbrace]⟩ ∨ strIncludes content "```json")
    then pending ++ stage2 content else pending
  let pending :=
    if pending.isEmpty ∧ strIncludes content "<" then pending ++ stage3 content
    else pending
  pending

end Helios

namespace Helios

/-! ## The agent loop (`src/chat.ts`, `runAgentStreaming`)

Modelled from `state.messages.push({role:'user', ...})` (line 751) onward.
Console/spinner output, the UI-preset knowledge feed and the
`ensureRipgrep`/`ensureFd` conveniences have no effect on the modelled
state and are elided.  Provider transport (streaming or not) is abstracted
by the per-iteration oracle `respond`: both transports deliver the same
data to the loop — accumulated text plus collected tool calls, or an error.
-/

inductive Role : Type where
  | system | user | assistant | tool
  deriving Repr, BEq, DecidableEq, Inhabited

structure Message where
  role : Role
  content : Option String
  tool_call_id : Option String := none
  tool_calls : List PendingCall := []
  deriving Repr, BEq, DecidableEq, Inhabited

inductive ARes : Type where
  | success | error | blocked
  deriving Repr, BEq, DecidableEq, Inhabited

/-- One `auditLogger.log` record (timestamp elided; `supervision` collapsed
to its only produced field). -/
structure AuditEntry where
  action : String
  args : JsonV
  result : ARes
  loopDetected : Bool := false
  deriving Repr, BEq, Inhabited

/-- What one provider round delivers to the loop. -/
structure ProviderTurn where
  content : String
  toolCalls : List PendingCall
  isError : Bool := false
  deriving Repr, BEq, Inhabited

/-- The effect oracles of the loop. -/
structure Env where
  /-- `path.resolve` against the current working directory. -/
  resolvePath : String → String
  /-- the `confirm` prompt: the answer to the n-th prompt of the session. -/
  promptAnswer : Nat → Bool
  /-- the tool registry `allHandlers`: `.error m` is a thrown exception. -/
  handler : String → Option (JsonV → Except String String)
  playwrightReady : Bool
  mgrepReady : Bool
  /-- provider output for the n-th loop iteration (1-based). -/
  respond : Nat → ProviderTurn

/-- `executeTool` (`src/tools/index.ts`): unknown names produce a message
(its listing of available handler names is elided), handler exceptions are
caught and become `Error executing {name}: {message}`. -/
def executeTool (env : Env) (name : String) (args : JsonV) : String :=
  match env.handler name with
  | none => "Unknown tool: " ++ name
  | some h =>
    match h args with
    | .ok s => s
    | .error m => "Error executing " ++ name ++ ": " ++ m

structure AgentState where
  messages : List Message
  auditLog : List AuditEntry
  ld : LDState
  perms : PermState
  promptCount : Nat
  /-- instrumentation: the calls that reached `executeTool`. -/
  executed : List (String × JsonV)
  deriving Repr, BEq, Inhabited

def AgentState.init (msgs : List Message) : AgentState :=
  ⟨msgs, [], LDState.init, createPermissionState, 0, []⟩

def toolMsg (id content : String) : Message :=
  { role := .tool, content := some content, tool_call_id := some id }

def pushToolMsg (st : AgentState) (id content : String) : AgentState :=
  { st with messages := st.messages ++ [toolMsg id content] }

/-- Lines 989-990: `displayPath = args.path || args.TargetFile || args.from
|| args.filepath || ''` and `absolutePath = displayPath ?
path.resolve(displayPath) : ''`.  `none` marks the `TypeError` thrown by
`path.resolve` on a truthy non-string. -/
def displayPathOk (env : Env) (args : JsonV) : Option String :=
  match firstTruthyKey args ["path", "TargetFile", "from", "filepath"] with
  | some (.str s) => some (env.resolvePath s)
  | some _ => none
  | none => some ""

/-- `{...args, absolutePath}` (spreading a non-object contributes no
string-keyed properties relevant to any claim). -/
def argsWithAbsolutePath (args : JsonV) (abs : String) : JsonV :=
  let fs := match args with | .obj fs => fs | _ => []
  .obj (JsonV.setK fs "absolutePath" (.str abs))

/-- The tail of the per-call pipeline: permission gate, readiness checks
and execution (`src/chat.ts` 1011-1067). -/
def processAfterScan (env : Env) (st : AgentState) (tc : PendingCall)
    (args : JsonV) (absolutePath : String) : AgentState × Bool :=
  let pr :=
    checkPermission tc.name (argsWithAbsolutePath args absolutePath) st.perms
      (env.promptAnswer st.promptCount)
  let permission := pr.1
  let st := { st with
    perms := pr.2.1,
    promptCount := st.promptCount + (if pr.2.2 then 1 else 0) }
  if !permission.approved then
    (pushToolMsg st tc.id "User denied permission.", false)
  else if strStartsWith tc.name "browser_" ∧ !env.playwrightReady then
    (pushToolMsg st tc.id "Error: Playwright not installed.", false)
  else if tc.name = "semantic_search" ∧ !env.mgrepReady then
    (pushToolMsg st tc.id "Error: mgrep setup incomplete.", false)
  else
    let result := executeTool env tc.name args
    (pushToolMsg
      { st with executed := st.executed ++ [(tc.name, args)],
                auditLog := st.auditLog ++ [⟨tc.name, args, .success, false⟩] }
      tc.id result, false)

/-- The per-call pipeline (`src/chat.ts` 985-1068), one `toolCall` of the
`for` loop.  The returned flag is `true` when the body threw — the
exception propagates to the outer `catch`, which breaks the turn. -/
def processCall (env : Env) (st : AgentState) (tc : PendingCall) :
    AgentState × Bool :=
  match jsonDecode (if tc.arguments = "" then "{}" else tc.arguments) with
  | none => (st, true)
  | some args =>
    match displayPathOk env args with
    | none => (st, true)
    | some absolutePath =>
      let (loopCheck, ld') := ldCheck tc.name args st.ld
      let st := { st with ld := ld' }
      if loopCheck.isLoop ∧ loopCheck.risk = .high then
        (pushToolMsg
          { st with auditLog := st.auditLog ++ [⟨tc.name, args, .blocked, true⟩] }
          tc.id "LOOP DETECTED: Try a different approach.", false)
      else if (tc.name = "write_file" ∨ tc.name = "edit_file") ∧
          ((args.get "content").any JsonV.truthy ∨ (args.get "replace").any JsonV.truthy) then
        -- `securityScanner.scan(args.content || args.replace || '')`
        match (firstTruthyKey args ["content", "replace"]).getD (.str "") with
        | .str payload =>
          let scanResult := scan payload
          if !scanResult.approved then
            (pushToolMsg st tc.id
              ("BLOCKED: " ++ (scanResult.issues.headD default).message), false)
          else
            processAfterScan env st tc args absolutePath
        | _ => (st, true)       -- `.match` on a non-string payload throws
      else
        processAfterScan env st tc args absolutePath

/-- The `for (const toolCall of pendingToolCalls)` loop; stops early when a
call body throws. -/
def processCalls (env : Env) : List PendingCall → AgentState → AgentState × Bool
  | [], st => (st, false)
  | tc :: rest, st =>
    let r := processCall env st tc
    if r.2 then (r.1, true) else processCalls env rest r.1

inductive ExitKind : Type where
  /-- no pending tool calls: assistant text appended, `break`. -/
  | finished
  /-- a streamed `error` chunk: `return` (skips the max-iterations check). -/
  | errorReturn
  /-- the outer `catch`: error printed, `break`. -/
  | errorBreak
  /-- `while` condition exhausted. -/
  | capReached
  deriving Repr, BEq, DecidableEq, Inhabited

/-- The `while (iterations < maxIterations)` loop; `fuel` is the number of
iterations still allowed. -/
def loopGo (env : Env) : Nat → Nat → AgentState → AgentState × Nat × ExitKind
  | 0, iters, st => (st, iters, .capReached)
  | fuel + 1, iters, st =>
    let iters' := iters + 1
    let r := env.respond iters'
    if r.isError then (st, iters', .errorReturn)
    else
      let pending := recoverCalls r.toolCalls r.content
      if pending.isEmpty then
        ({ st with messages := st.messages ++
            [{ role := .assistant, content := some r.content }] }, iters', .finished)
      else
        let st := { st with messages := st.messages ++
          [{ role := .assistant,
             content := if r.content = "" then none else some r.content,
             tool_calls := pending }] }
        let pc := processCalls env pending st
        if pc.2 then (pc.1, iters', .errorBreak)
        else loopGo env fuel iters' pc.1

structure RunResult where
  state : AgentState
  iterations : Nat
  maxIterationsWarning : Bool
  deriving Repr, BEq, Inhabited

/-- `runAgentStreaming` from the user-message push onward. -/
def runAgentStreaming (env : Env) (maxIterations : Nat) (userMessage : String)
    (st0 : AgentState) : RunResult :=
  let st := { st0 with messages := st0.messages ++
    [{ role := .user, content := some userMessage }] }
  let r := loopGo env maxIterations 0 st
  ⟨r.1, r.2.1, r.2.2 ≠ .errorReturn ∧ r.2.1 ≥ maxIterations⟩

end Helios

namespace Helios

/-! ## Auxiliary definitions used by the theorems -/

/-- Does a character list contain two consecutive underscores? -/
def hasDunder : List Char → Bool
  | [] => false
  | [_] => false
  | a :: b :: rest => (a = '_' ∧ b = '_') || hasDunder (b :: rest)

/-- `n` further `LoopDetector.check` calls with the same `(action, args)`. -/
def feedLD (action : String) (args : JsonV) : Nat → LDState → LDState
  | 0, st => st
  | n + 1, st => feedLD action args n (ldCheck action args st).2

/-- A streamed tool-call fragment delta without an id. -/
def fragEvent (f : Option String × Option String) : SSEvent :=
  .delta none [⟨none, f.1, f.2⟩] none

/-- Concatenation of the name fragments, under the source's truthiness
guard. -/
def catNames : List (Option String × Option String) → String
  | [] => ""
  | f :: t => (if otruthy f.1 then f.1.getD "" else "") ++ catNames t

/-- Concatenation of the argument fragments. -/
def catArgs : List (Option String × Option String) → String
  | [] => ""
  | f :: t => (if otruthy f.2 then f.2.getD "" else "") ++ catArgs t

def countToolMsgs (msgs : List Message) : Nat :=
  (msgs.filter (fun m => m.role = .tool)).length

/-- A tool call is well formed when its pipeline run cannot throw: its
arguments deserialize, its display path is not a truthy non-string, and
the value a security scan would receive is a string. -/
def callWellFormed (env : Env) (tc : PendingCall) : Bool :=
  match jsonDecode (if tc.arguments = "" then "{}" else tc.arguments) with
  | none => false
  | some args =>
    (displayPathOk env args).isSome &&
    (match (firstTruthyKey args ["content", "replace"]).getD (.str "") with
     | .str _ => true
     | _ => false)

/-- Handlers used by the concrete scenario runs. -/
def demoHandlers : String → Option (JsonV → Except String String) :=
  fun n =>
    if n = "read_file" then some (fun _ => .ok "file contents")
    else if n = "write_file" then some (fun _ => .ok "File written")
    else if n = "run_command" then some (fun _ => .ok "command output")
    else if n = "delete_file" then some (fun _ => .ok "Deleted")
    else none

/-- A base environment for concrete scenario runs. -/
def demoEnv (resp : Nat → ProviderTurn) : Env :=
  { resolvePath := fun s => "/cwd/" ++ s,
    promptAnswer := fun _ => true,
    handler := demoHandlers,
    playwrightReady := true,
    mgrepReady := true,
    respond := resp }

/-- C1 scenario: the provider returns one structured tool call whose
serialized arguments are the malformed JSON `{`. -/
def badArgsCall : PendingCall := ⟨"call_1", "read_file", ⟨[lbrace]⟩⟩

def envC1 : Env := demoEnv (fun _ => ⟨"", [badArgsCall], false⟩)

def runC1 : RunResult := runAgentStreaming envC1 30 "read it" (AgentState.init [])

/-- C2 scenario: one `write_file` call whose content contains
`eval(userInput)`. -/
def evilWriteCall : PendingCall :=
  ⟨"call_1", "write_file",
   JsonV.encode (.obj [("path", .str "a.ts"), ("content", .str "eval(userInput)")])⟩

def envC2 : Env :=
  demoEnv (fun n => if n = 1 then ⟨"", [evilWriteCall], false⟩ else ⟨"done", [], false⟩)

def runC2 : RunResult := runAgentStreaming envC2 30 "write it" (AgentState.init [])

/-- C3 scenario: the `read_file` handler throws. -/
def envC3 : Env :=
  { demoEnv (fun n => if n = 1
      then ⟨"", [⟨"call_1", "read_file", JsonV.encode (.obj [("path", .str "x")])⟩], false⟩
      else ⟨"done", [], false⟩) with
    handler := fun n =>
      if n = "read_file" then some (fun _ => .error "ENOENT: no such file") else none }

def runC3 : RunResult := runAgentStreaming envC3 30 "read it" (AgentState.init [])

/-- The parsed arguments of `evilWriteCall`. -/
def evilArgs : JsonV := .obj [("path", .str "a.ts"), ("content", .str "eval(userInput)")]

/-- C2 counterexample, second part: a `run_command` call whose command is
`rm -rf /` (which `scanCommand` would reject) still reaches execution. -/
def rmCall : PendingCall :=
  ⟨"call_1", "run_command", JsonV.encode (.obj [("command", .str "rm -rf /")])⟩

def envC2b : Env :=
  demoEnv (fun n => if n = 1 then ⟨"", [rmCall], false⟩ else ⟨"done", [], false⟩)

def runC2b : RunResult := runAgentStreaming envC2b 30 "clean up" (AgentState.init [])

/-- C5 scenario: every iteration returns one structured tool call. -/
def envC5 : Env :=
  demoEnv (fun _ =>
    ⟨"", [⟨"c1", "read_file", JsonV.encode (.obj [("path", .str "x")])⟩], false⟩)

/-- C9 scenario: a dangerous call, denied at the prompt, issued twice. -/
def denyArgs : JsonV := .obj [("path", .str "x")]

def firstDeny := checkPermission "delete_file" denyArgs createPermissionState false

def secondDeny := checkPermission "delete_file" denyArgs firstDeny.2.1 false

end Helios

namespace Helios

/-! # Theorems -/

/-! ## Shared lemmas -/

theorem filterMapIf_isEmpty {α β : Type} (l : List α) (p : α → Bool) (f : α → β) :
    (l.filterMap (fun a => if p a then some (f a) else none)).isEmpty
      = !(l.any p) := by
  induction l with
  | nil => rfl
  | cons a t ih =>
    by_cases h : p a
    · simp [List.filterMap_cons, h]
    · simp [List.filterMap_cons, h, ih]

theorem mem_filterMapIf {α β : Type} {l : List α} {p : α → Bool} {f : α → β} {b : β}
    (hb : b ∈ l.filterMap (fun a => if p a then some (f a) else none)) :
    ∃ a ∈ l, p a = true ∧ b = f a := by
  simp only [List.mem_filterMap] at hb
  obtain ⟨a, ha, hfa⟩ := hb
  by_cases h : p a
  · simp only [h, if_true, Option.some.injEq] at hfa
    exact ⟨a, ha, h, hfa.symm⟩
  · simp [h] at hfa

theorem hasDunder_append (l1 l2 : List Char) :
    hasDunder (l1 ++ '_' :: '_' :: l2) = true := by
  induction l1 with
  | nil => simp [hasDunder]
  | cons c t ih =>
    cases t with
    | nil => simp only [List.nil_append] at ih; simp [hasDunder, ih]
    | cons d t' => simp only [List.cons_append] at ih ⊢; simp [hasDunder, ih]

theorem dunder_not_dangerous (s : String) (h : hasDunder s.data = true) :
    dangerousTools.contains s = false := by
  by_contra hc
  have hm : s ∈ dangerousTools := by
    have hck : dangerousTools.contains s = true := by
      cases hck : dangerousTools.contains s
      · exact absurd hck hc
      · rfl
    simpa [List.elem_eq_mem] using hck
  simp only [dangerousTools, List.mem_cons, List.not_mem_nil, or_false] at hm
  rcases hm with rfl | rfl | rfl | rfl | rfl | rfl | rfl | rfl | rfl | rfl | rfl | rfl | rfl | rfl | rfl | rfl <;>
    exact absurd h (by decide)

/-! ## Claim C8 -/

/-- Claim C8: `scanCommand` returns `approved = false` exactly for commands
matching at least one destructive-operation signature of its table, every
reported issue carries severity `critical`, and commands matching none are
approved — e.g. `rm -rf /` is rejected and `ls -la` is approved. -/
theorem scanCommand_spec (command : String) :
    ((scanCommand command).approved = false ↔
      dangerousCommands.any (fun dc => dc.1 command) = true) ∧
    (∀ i ∈ (scanCommand command).issues, i.severity = .critical) ∧
    (scanCommand "rm -rf /").approved = false ∧
    (scanCommand "ls -la").approved = true := by
  refine ⟨?_, ?_, by decide, by decide⟩
  · have h1 : (scanCommand command).approved
        = !(dangerousCommands.any (fun dc => dc.1 command)) := by
      simp [scanCommand, filterMapIf_isEmpty]
    rw [h1]
    cases dangerousCommands.any (fun dc => dc.1 command) <;> simp
  · intro i hi
    have hi' : i ∈ dangerousCommands.filterMap (fun dc =>
        if dc.1 command then
          some (⟨.critical, dc.2, "This command is blocked for safety"⟩ : SecIssue)
        else none) := hi
    obtain ⟨a, _, _, hb⟩ := mem_filterMapIf hi'
    rw [hb]

/-- Witness for C8, instantiated at the fork bomb. -/
theorem scanCommand_spec_witness :
    ((scanCommand ":(){ :|:& };:").approved = false) ∧
    (∀ i ∈ (scanCommand ":(){ :|:& };:").issues, i.severity = .critical) :=
  ⟨(scanCommand_spec ":(){ :|:& };:").1.mpr (by decide),
   (scanCommand_spec ":(){ :|:& };:").2.1⟩

/-! ## Claim C10 -/

/-- Claim C10: the permission gate is a closed deny-list — for every tool
name outside `DANGEROUS_TOOLS`, `checkPermission` approves without
prompting (and without touching the session state), for all argument
values and whatever the auto-approve flag holds; in particular every
MCP-namespaced `server__tool` name is outside the set. -/
theorem checkPermission_denylist (name : String) (args : JsonV) (st : PermState)
    (answer : Bool) (h : dangerousTools.contains name = false) :
    checkPermission name args st answer = (⟨true, none⟩, st, false) ∧
    (∀ server tool : String,
      dangerousTools.contains (server ++ "__" ++ tool) = false) := by
  constructor
  · have hd : isDangerousTool name = false := by
      unfold isDangerousTool; rw [h]; rfl
    simp only [checkPermission, hd, Bool.not_false, if_true]
    split_ifs <;> rfl
  · intro server tool
    apply dunder_not_dangerous
    have hdata : (server ++ "__" ++ tool).data
        = server.data ++ '_' :: '_' :: tool.data := by
      simp [String.data_append]
    rw [hdata]
    exact hasDunder_append _ _

/-- Witness for C10 at an MCP-style name with auto-approve off and on. -/
theorem checkPermission_denylist_witness :
    dangerousTools.contains "server__tool" = false ∧
    checkPermission "server__tool" (.obj []) ⟨false, []⟩ false
      = (⟨true, none⟩, ⟨false, []⟩, false) ∧
    checkPermission "server__tool" (.obj []) ⟨true, []⟩ false
      = (⟨true, none⟩, ⟨true, []⟩, false) :=
  ⟨by decide,
   (checkPermission_denylist "server__tool" (.obj []) ⟨false, []⟩ false (by decide)).1,
   (checkPermission_denylist "server__tool" (.obj []) ⟨true, []⟩ false (by decide)).1⟩

end Helios

namespace Helios

theorem ne_true_of_eq_false {b : Bool} (h : b = false) : ¬(b = true) := by
  simp [h]

theorem contains_append_self (l : List String) (a : String) :
    (l ++ [a]).contains a = true := by
  simp [List.elem_eq_mem]

/-! ## Claim C9 -/

/-- Counterexample to C9 as stated: a dangerous call denied at the prompt
is not cached, so the identical second call prompts again (two prompts,
and the second call is denied rather than approved from the cache). -/
theorem permission_reprompts_after_denial :
    firstDeny.2.2 = true ∧ secondDeny.2.2 = true ∧ secondDeny.1.approved = false :=
  ⟨rfl, rfl, rfl⟩

/-- Claim C9 as amended: when the first call prompted and the user
approved, the identical `(name, serialized-args)` call is approved from
the session cache without prompting. -/
theorem checkPermission_cached_after_approval (name : String) (args : JsonV)
    (st : PermState) (answer2 : Bool)
    (hprompt : (checkPermission name args st true).2.2 = true) :
    checkPermission name args ((checkPermission name args st true).2.1) answer2
      = (⟨true, none⟩, (checkPermission name args st true).2.1, false) := by
  unfold checkPermission at hprompt
  by_cases h1 : isSafeTool name = true
  · rw [if_pos h1] at hprompt; simp at hprompt
  · rw [Bool.not_eq_true] at h1
    rw [if_neg (ne_true_of_eq_false h1)] at hprompt
    by_cases h2 : st.autoApprove = true
    · rw [if_pos h2] at hprompt; simp at hprompt
    · rw [Bool.not_eq_true] at h2
      rw [if_neg (ne_true_of_eq_false h2)] at hprompt
      simp only [] at hprompt
      by_cases h3 : st.approvedThisSession.contains (name ++ ":" ++ JsonV.encode args) = true
      · rw [if_pos h3] at hprompt; simp at hprompt
      · rw [Bool.not_eq_true] at h3
        rw [if_neg (ne_true_of_eq_false h3)] at hprompt
        by_cases h4 : isDangerousTool name = true
        · have e1 : (checkPermission name args st true).2.1
              = { st with approvedThisSession :=
                    st.approvedThisSession ++ [name ++ ":" ++ JsonV.encode args] } := by
            unfold checkPermission
            rw [if_neg (ne_true_of_eq_false h1), if_neg (ne_true_of_eq_false h2)]
            simp only []
            rw [if_neg (ne_true_of_eq_false h3),
                if_neg (ne_true_of_eq_false (by rw [h4]; rfl))]
            rfl
          rw [e1]
          unfold checkPermission
          rw [if_neg (ne_true_of_eq_false h1)]
          rw [if_neg (ne_true_of_eq_false (h2 ▸ rfl :
                ({ st with approvedThisSession :=
                    st.approvedThisSession ++ [name ++ ":" ++ JsonV.encode args] } :
                  PermState).autoApprove = false))]
          simp only []
          rw [if_pos (contains_append_self _ _)]
        · rw [Bool.not_eq_true] at h4
          rw [if_pos (by rw [h4]; rfl)] at hprompt
          simp at hprompt

/-- Witness for the amended C9: `delete_file` on `{path: x}`, first call
approved at the prompt, second call served from the cache. -/
theorem checkPermission_cached_after_approval_witness :
    (checkPermission "delete_file" denyArgs createPermissionState true).2.2 = true ∧
    checkPermission "delete_file" denyArgs
        ((checkPermission "delete_file" denyArgs createPermissionState true).2.1) false
      = (⟨true, none⟩,
         (checkPermission "delete_file" denyArgs createPermissionState true).2.1,
         false) :=
  ⟨rfl, checkPermission_cached_after_approval "delete_file" denyArgs
          createPermissionState false rfl⟩

end Helios

namespace Helios

/-! ## Claim C4 -/

theorem checkH_snd (hash action : String) (st : LDState) :
    (checkH hash action st).2 = ⟨nextHistory hash action st, nextConsec hash st⟩ := rfl

theorem checkH_getLast (hash action : String) (st : LDState) :
    (checkH hash action st).2.history.getLast? = some ⟨hash, action⟩ := by
  rw [checkH_snd]
  show (nextHistory hash action st).getLast? = some ⟨hash, action⟩
  unfold nextHistory
  simp only []
  split_ifs with h
  · cases hh : st.history with
    | nil => rw [hh] at h; simp [maxHistory] at h
    | cons c t =>
      show ((c :: (t ++ [⟨hash, action⟩])).tail).getLast? = _
      simp [List.getLast?_append]
  · rw [List.getLast?_append]
    rfl

theorem nextConsec_of_match (hash : String) (st : LDState)
    (hm : st.history.getLast?.map StepRecord.hash = some hash) :
    nextConsec hash st = st.consecutiveRepeats + 1 := by
  unfold nextConsec
  rw [if_pos]
  refine ⟨?_, hm⟩
  intro hnil
  rw [hnil] at hm
  simp at hm

theorem nextConsec_of_mismatch (hash : String) (st : LDState)
    (hm : st.history.getLast?.map StepRecord.hash ≠ some hash) :
    nextConsec hash st = 0 := by
  unfold nextConsec
  rw [if_neg]
  intro hc
  exact hm hc.2

theorem checkH_fst_high (hash action : String) (st : LDState)
    (h : nextConsec hash st ≥ 2) :
    (checkH hash action st).1.isLoop = true ∧ (checkH hash action st).1.risk = .high := by
  constructor <;> (unfold checkH; simp only []; rw [if_pos h])

theorem checkH_fst_not_high (hash action : String) (st : LDState)
    (h : nextConsec hash st < 2) :
    (checkH hash action st).1.risk ≠ .high := by
  unfold checkH
  simp only []
  rw [if_neg (by omega : ¬ nextConsec hash st ≥ 2)]
  split_ifs <;> simp

theorem feedLD_succ (action : String) (args : JsonV) (n : Nat) (st : LDState) :
    feedLD action args (n + 1) st = (ldCheck action args (feedLD action args n st)).2 := by
  induction n generalizing st with
  | zero => rfl
  | succ n ih => exact ih (ldCheck action args st).2

theorem feedLD_invariant (action : String) (args : JsonV) (st : LDState)
    (hm : st.history.getLast?.map StepRecord.hash ≠ some (hashStep action args)) :
    ∀ n, 1 ≤ n →
      (feedLD action args n st).history.getLast?
          = some ⟨hashStep action args, action⟩ ∧
      (feedLD action args n st).consecutiveRepeats = n - 1 := by
  intro n hn
  induction n with
  | zero => omega
  | succ n ih =>
    match n, ih with
    | 0, _ =>
      constructor
      · exact checkH_getLast _ _ _
      · show (checkH (hashStep action args) action st).2.consecutiveRepeats = 0
        rw [checkH_snd]
        exact nextConsec_of_mismatch _ _ hm
    | m + 1, ih =>
      obtain ⟨ihl, ihc⟩ := ih (by omega)
      rw [feedLD_succ]
      constructor
      · exact checkH_getLast _ _ _
      · show (checkH (hashStep action args) action _).2.consecutiveRepeats = _
        rw [checkH_snd]
        show nextConsec (hashStep action args) _ = m + 1
        rw [nextConsec_of_match _ _ (by rw [ihl]; rfl), ihc]
        omega

/-- Claim C4: starting from any state whose last recorded hash differs
from the step hash of `(action, args)`, a run of identical
`LoopDetector.check` calls is flagged `isLoop = true, risk = high`
starting exactly at the 3rd consecutive occurrence — the 1st and 2nd are
never flagged high — and the consecutive-repeat counter resets to 0
whenever the step hash changes. -/
theorem loopDetector_third_strike (action : String) (args : JsonV) (st : LDState)
    (hfresh : st.history.getLast?.map StepRecord.hash ≠ some (hashStep action args)) :
    ((ldCheck action args st).1.risk ≠ .high) ∧
    ((ldCheck action args (feedLD action args 1 st)).1.risk ≠ .high) ∧
    (∀ k, 2 ≤ k →
      (ldCheck action args (feedLD action args k st)).1.isLoop = true ∧
      (ldCheck action args (feedLD action args k st)).1.risk = .high) ∧
    (∀ (st' : LDState) (hash' action' : String),
      st'.history.getLast?.map StepRecord.hash ≠ some hash' →
      (checkH hash' action' st').2.consecutiveRepeats = 0) := by
  refine ⟨?_, ?_, ?_, ?_⟩
  · exact checkH_fst_not_high _ _ _
      (by rw [nextConsec_of_mismatch _ _ hfresh]; omega)
  · obtain ⟨hl, hc⟩ := feedLD_invariant action args st hfresh 1 (by omega)
    exact checkH_fst_not_high _ _ _
      (by rw [nextConsec_of_match _ _ (by rw [hl]; rfl), hc]; omega)
  · intro k hk
    obtain ⟨hl, hc⟩ := feedLD_invariant action args st hfresh k (by omega)
    exact checkH_fst_high _ _ _
      (by rw [nextConsec_of_match _ _ (by rw [hl]; rfl), hc]; omega)
  · intro st' hash' action' hm'
    rw [checkH_snd]
    exact nextConsec_of_mismatch _ _ hm'

/-- Witness for C4 on a fresh detector: the 1st identical call is not
high-risk, the 3rd is flagged. -/
theorem loopDetector_third_strike_witness :
    ((ldCheck "read_file" (.obj [("path", .str "x")]) LDState.init).1.risk ≠ .high) ∧
    ((ldCheck "read_file" (.obj [("path", .str "x")])
        (feedLD "read_file" (.obj [("path", .str "x")]) 2 LDState.init)).1.isLoop = true ∧
     (ldCheck "read_file" (.obj [("path", .str "x")])
        (feedLD "read_file" (.obj [("path", .str "x")]) 2 LDState.init)).1.risk = .high) :=
  ⟨(loopDetector_third_strike "read_file" (.obj [("path", .str "x")]) LDState.init
      (by simp [LDState.init])).1,
   (loopDetector_third_strike "read_file" (.obj [("path", .str "x")]) LDState.init
      (by simp [LDState.init])).2.2.1 2 (by omega)⟩

end Helios

namespace Helios

/-! ## Claim C7 -/

theorem stepTC_new_id (c : ToolCallRec) (i : String) (n a : Option String)
    (hi : i ≠ "") :
    stepTC (some c) ⟨some i, n, a⟩ = ([.toolCall c], some ⟨i, n.getD "", a.getD ""⟩) := by
  unfold stepTC
  rw [if_pos (by simpa [otruthy] using hi)]
  rfl

theorem processSSE_frag_step (now : Nat) (f : Option String × Option String)
    (rest : List SSEvent) (c : ToolCallRec) :
    processSSE now (fragEvent f :: rest) (some c)
      = processSSE now rest (some ⟨c.id,
          c.name ++ (if otruthy f.1 then f.1.getD "" else ""),
          c.arguments ++ (if otruthy f.2 then f.2.getD "" else "")⟩) := rfl

theorem processSSE_frags_done (now : Nat) (frags : List (Option String × Option String))
    (c : ToolCallRec) :
    processSSE now (frags.map fragEvent ++ [.doneMark]) (some c)
      = [.toolCall ⟨c.id, c.name ++ catNames frags, c.arguments ++ catArgs frags⟩,
         .doneC] := by
  induction frags generalizing c with
  | nil =>
    show processSSE now [.doneMark] (some c) = _
    simp [processSSE, catNames, catArgs]
  | cons f t ih =>
    show processSSE now (fragEvent f :: (t.map fragEvent ++ [.doneMark])) (some c) = _
    rw [processSSE_frag_step, ih]
    simp [catNames, catArgs, String.append_assoc]

/-- Claim C7: streaming tool-call reconstruction — name/argument fragments
arriving without a new id are concatenated onto the currently-open call
and the done sentinel emits the still-open call; a chunk carrying a new id
emits the previous open call and opens a new one; in particular the
id=1 / "read_fi","le" / argument-fragment scenario reconstructs to the
single call `{id: "1", name: "read_file", arguments: '{"path":"x.txt"}'}`. -/
theorem streamReconstruction_spec :
    (∀ (now : Nat) (frags : List (Option String × Option String)) (c : ToolCallRec),
      processSSE now (frags.map fragEvent ++ [.doneMark]) (some c)
        = [.toolCall ⟨c.id, c.name ++ catNames frags, c.arguments ++ catArgs frags⟩,
           .doneC]) ∧
    (∀ (now : Nat) (c : ToolCallRec) (i : String) (n a : Option String)
        (rest : List SSEvent), i ≠ "" →
      processSSE now (.delta none [⟨some i, n, a⟩] none :: rest) (some c)
        = .toolCall c :: processSSE now rest (some ⟨i, n.getD "", a.getD ""⟩)) ∧
    streamChunks 7
      [.delta none [⟨some "1", some "read_fi", none⟩] none,
       .delta none [⟨none, some "le", none⟩] none,
       .delta none [⟨none, none, some "\x7b\"path\":"⟩] none,
       .delta none [⟨none, none, some "\"x.txt\"\x7d"⟩] none,
       .doneMark]
      = [.toolCall ⟨"1", "read_file", "\x7b\"path\":\"x.txt\"\x7d"⟩, .doneC] := by
  refine ⟨processSSE_frags_done, ?_, rfl⟩
  intro now c i n a rest hi
  have hstep : stepTCs (some c) [⟨some i, n, a⟩]
      = ([.toolCall c], some ⟨i, n.getD "", a.getD ""⟩) := by
    unfold stepTCs
    rw [stepTC_new_id c i n a hi]
    rfl
  simp only [processSSE, hstep, otruthy]
  rfl

/-- Witness for C7: an open call `id=1` is emitted when a chunk with the
new id `2` arrives, and the `[DONE]` sentinel flushes the new call. -/
theorem streamReconstruction_spec_witness :
    processSSE 0 [.delta none [⟨some "2", some "write_file", none⟩] none, .doneMark]
        (some ⟨"1", "read_file", "\x7b\x7d"⟩)
      = [.toolCall ⟨"1", "read_file", "\x7b\x7d"⟩,
         .toolCall ⟨"2", "write_file", ""⟩, .doneC] := by
  rw [streamReconstruction_spec.2.1 0 ⟨"1", "read_file", "\x7b\x7d"⟩ "2"
        (some "write_file") none [.doneMark] (by decide)]
  rfl

end Helios

namespace Helios

/-! ## The per-call pipeline lemmas (claims C1, C2, C3, C5) -/

theorem processAfterScan_no_abort (env : Env) (st : AgentState) (tc : PendingCall)
    (args : JsonV) (abs : String) :
    (processAfterScan env st tc args abs).2 = false := by
  unfold processAfterScan
  simp only []
  split_ifs <;> rfl

theorem processAfterScan_messages (env : Env) (st : AgentState) (tc : PendingCall)
    (args : JsonV) (abs : String) :
    ∃ m : Message, m.role = .tool ∧
      (processAfterScan env st tc args abs).1.messages = st.messages ++ [m] := by
  unfold processAfterScan
  simp only []
  split_ifs <;> exact ⟨_, rfl, rfl⟩

/-- A well-formed tool call never throws, and its pipeline run appends
exactly one tool-role message. -/
theorem processCall_wellFormed (env : Env) (st : AgentState) (tc : PendingCall)
    (h : callWellFormed env tc = true) :
    (processCall env st tc).2 = false ∧
    ∃ m : Message, m.role = .tool ∧
      (processCall env st tc).1.messages = st.messages ++ [m] := by
  unfold callWellFormed at h
  unfold processCall
  split
  next heq => simp only [heq] at h; exact Bool.noConfusion h
  next args heq =>
    simp only [heq, Bool.and_eq_true] at h
    obtain ⟨h1, h2⟩ := h
    split
    next hdp => rw [hdp] at h1; cases h1
    next abs hdp =>
      simp only []
      split_ifs with hloop hscan
      · exact ⟨rfl, _, rfl, rfl⟩
      · cases hpay : (firstTruthyKey args ["content", "replace"]).getD (.str "") with
        | str s =>
          simp only [hpay]
          split_ifs with happ
          · exact ⟨rfl, _, rfl, rfl⟩
          · exact ⟨processAfterScan_no_abort _ _ _ _ _,
                   processAfterScan_messages _ _ _ _ _⟩
        | nul => simp only [hpay] at h2; exact Bool.noConfusion h2
        | bool b => simp only [hpay] at h2; exact Bool.noConfusion h2
        | num n => simp only [hpay] at h2; exact Bool.noConfusion h2
        | arr l => simp only [hpay] at h2; exact Bool.noConfusion h2
        | obj fs => simp only [hpay] at h2; exact Bool.noConfusion h2
      · exact ⟨processAfterScan_no_abort _ _ _ _ _,
               processAfterScan_messages _ _ _ _ _⟩

theorem processCalls_wellFormed (env : Env) (batch : List PendingCall) :
    ∀ st : AgentState, (∀ tc ∈ batch, callWellFormed env tc = true) →
      (processCalls env batch st).2 = false ∧
      (processCalls env batch st).1.messages.length
        = st.messages.length + batch.length := by
  induction batch with
  | nil => intro st h; exact ⟨rfl, by simp [processCalls]⟩
  | cons tc rest ih =>
    intro st h
    obtain ⟨hab, m, hm, hmsgs⟩ := processCall_wellFormed env st tc (h tc (by simp))
    unfold processCalls
    simp only []
    rw [hab]
    simp only [if_false, Bool.false_eq_true]
    obtain ⟨ih1, ih2⟩ := ih (processCall env st tc).1
      (fun x hx => h x (List.mem_cons_of_mem _ hx))
    refine ⟨ih1, ?_⟩
    rw [ih2, hmsgs]
    simp [List.length_append]
    omega

/-! ## Claim C1 -/

/-- Claim C1 evaluated at the failing input (a `ToolCall` whose serialized
arguments are the malformed JSON `{`): `JSON.parse` throws, the outer
`catch` breaks the turn after one iteration, and no tool-role message is
appended — the assistant message carrying the call dangles. -/
theorem malformedArgs_abort_turn :
    runC1.iterations = 1 ∧
    runC1.state.messages
      = [⟨.user, some "read it", none, []⟩, ⟨.assistant, none, none, [badArgsCall]⟩] ∧
    countToolMsgs runC1.state.messages = 0 :=
  ⟨rfl, rfl, rfl⟩

/-! ## Claim C2 -/

/-- Counterexample to C2 as stated: a security-rejected `write_file`
(content `eval(userInput)`) is blocked with no audit-log entry at all, and
a `run_command` call whose command string matches a destructive signature
(`rm -rf /`, rejected by `scanCommand`) is never scanned — it executes and
is logged `success`. -/
theorem securityBlock_no_audit_entry :
    runC2.state.messages.filter (fun m => m.role = .tool)
      = [toolMsg "call_1" "BLOCKED: eval() can execute arbitrary code"] ∧
    runC2.state.auditLog = [] ∧
    runC2.state.executed = [] ∧
    (scanCommand "rm -rf /").approved = false ∧
    runC2b.state.executed = [("run_command", .obj [("command", .str "rm -rf /")])] ∧
    runC2b.state.auditLog
      = [⟨"run_command", .obj [("command", .str "rm -rf /")], .success, false⟩] :=
  ⟨rfl, rfl, rfl, rfl, rfl, rfl⟩

/-- Claim C2 as amended: the Security Scanner step applies only to
`write_file`/`edit_file` calls with a truthy content/replace payload; on
rejection the pipeline appends one `BLOCKED: {top issue message}`
tool-result and skips execution, but writes no audit-log entry; and
`run_command` calls bypass the scanner entirely (their command string is
never scanned). -/
theorem securityScan_block_behavior (env : Env) (st : AgentState) (tc : PendingCall)
    (args : JsonV) (abs payload : String)
    (hdec : jsonDecode (if tc.arguments = "" then "{}" else tc.arguments) = some args)
    (habs : displayPathOk env args = some abs)
    (hloop : ¬((ldCheck tc.name args st.ld).1.isLoop = true ∧
               (ldCheck tc.name args st.ld).1.risk = Risk.high))
    (hname : tc.name = "write_file" ∨ tc.name = "edit_file")
    (hguard : (args.get "content").any JsonV.truthy = true ∨
              (args.get "replace").any JsonV.truthy = true)
    (hpay : (firstTruthyKey args ["content", "replace"]).getD (.str "") = .str payload)
    (hrej : (scan payload).approved = false) :
    (processCall env st tc
      = (pushToolMsg { st with ld := (ldCheck tc.name args st.ld).2 } tc.id
          ("BLOCKED: " ++ ((scan payload).issues.headD default).message), false)) ∧
    (∀ (env' : Env) (st' : AgentState) (tc' : PendingCall) (args' : JsonV) (abs' : String),
      jsonDecode (if tc'.arguments = "" then "{}" else tc'.arguments) = some args' →
      displayPathOk env' args' = some abs' →
      ¬((ldCheck tc'.name args' st'.ld).1.isLoop = true ∧
        (ldCheck tc'.name args' st'.ld).1.risk = Risk.high) →
      tc'.name = "run_command" →
      processCall env' st' tc'
        = processAfterScan env' { st' with ld := (ldCheck tc'.name args' st'.ld).2 }
            tc' args' abs') := by
  constructor
  · unfold processCall
    split
    next heq => rw [heq] at hdec; cases hdec
    next args2 heq =>
      rw [heq] at hdec
      injection hdec with hdec
      subst hdec
      split
      next hdp => rw [hdp] at habs; cases habs
      next abs2 hdp =>
        rw [hdp] at habs
        injection habs with habs
        subst habs
        simp only []
        rw [if_neg hloop, if_pos ⟨hname, hguard⟩]
        simp only [hpay]
        rw [if_pos (by rw [hrej]; rfl)]
  · intro env' st' tc' args' abs' hdec' habs' hloop' hrun
    unfold processCall
    split
    next heq => rw [heq] at hdec'; cases hdec'
    next args2 heq =>
      rw [heq] at hdec'
      injection hdec' with hdec'
      subst hdec'
      split
      next hdp => rw [hdp] at habs'; cases habs'
      next abs2 hdp =>
        rw [hdp] at habs'
        injection habs' with habs'
        subst habs'
        simp only []
        rw [if_neg hloop', if_neg (by
          rw [hrun]; rintro ⟨h, -⟩
          rcases h with h | h <;> exact absurd h (by decide))]

/-- Witness for the amended C2: the `eval(userInput)` write is blocked
(no audit entry in the resulting state), and the `rm -rf /` command call
falls through to the permission/execution tail. -/
theorem securityScan_block_behavior_witness :
    processCall envC2 (AgentState.init []) evilWriteCall
      = (pushToolMsg { AgentState.init [] with
            ld := (ldCheck evilWriteCall.name evilArgs (AgentState.init []).ld).2 }
          "call_1" "BLOCKED: eval() can execute arbitrary code", false) ∧
    processCall envC2b (AgentState.init []) rmCall
      = processAfterScan envC2b
          { AgentState.init [] with
            ld := (ldCheck rmCall.name (.obj [("command", .str "rm -rf /")])
                     (AgentState.init []).ld).2 }
          rmCall (.obj [("command", .str "rm -rf /")]) "" := by
  constructor
  · exact ((securityScan_block_behavior envC2 (AgentState.init []) evilWriteCall
      evilArgs "/cwd/a.ts" "eval(userInput)" rfl rfl (by decide) (Or.inl rfl)
      (Or.inl rfl) rfl rfl).1).trans (by rfl)
  · exact (securityScan_block_behavior envC2 (AgentState.init []) evilWriteCall
      evilArgs "/cwd/a.ts" "eval(userInput)" rfl rfl (by decide) (Or.inl rfl)
      (Or.inl rfl) rfl rfl).2 envC2b (AgentState.init []) rmCall
      (.obj [("command", .str "rm -rf /")]) "" rfl rfl (by decide) rfl

/-! ## Claim C3 -/

/-- Counterexample to C3 as stated: the thrown handler error is converted
to the error string and the turn continues, but the audit-log entry has
result `success`, not `error`. -/
theorem handlerError_logged_success :
    runC3.state.messages.filter (fun m => m.role = .tool)
      = [toolMsg "call_1" "Error executing read_file: ENOENT: no such file"] ∧
    runC3.state.auditLog
      = [⟨"read_file", .obj [("path", .str "x")], .success, false⟩] ∧
    runC3.iterations = 2 :=
  ⟨rfl, rfl, rfl⟩

/-- Claim C3 as amended: a handler exception is caught at the handler
boundary and converted to the string `Error executing {name}: {message}`,
the action is logged in the audit log with result `success` (the loop does
not distinguish handler errors), the error string is appended as the
tool-result, and the call does not abort the turn. -/
theorem handlerError_behavior :
    (∀ (env : Env) (name : String) (args : JsonV)
        (h : JsonV → Except String String) (m : String),
      env.handler name = some h → h args = .error m →
      executeTool env name args = "Error executing " ++ name ++ ": " ++ m) ∧
    (∀ (env : Env) (st : AgentState) (tc : PendingCall) (args : JsonV) (abs : String),
      (checkPermission tc.name (argsWithAbsolutePath args abs) st.perms
          (env.promptAnswer st.promptCount)).1.approved = true →
      ¬(strStartsWith tc.name "browser_" = true ∧ (!env.playwrightReady) = true) →
      ¬(tc.name = "semantic_search" ∧ (!env.mgrepReady) = true) →
      processAfterScan env st tc args abs
        = (pushToolMsg
            { st with
              perms := (checkPermission tc.name (argsWithAbsolutePath args abs) st.perms
                  (env.promptAnswer st.promptCount)).2.1,
              promptCount := st.promptCount +
                (if (checkPermission tc.name (argsWithAbsolutePath args abs) st.perms
                    (env.promptAnswer st.promptCount)).2.2 then 1 else 0),
              executed := st.executed ++ [(tc.name, args)],
              auditLog := st.auditLog ++ [⟨tc.name, args, .success, false⟩] }
            tc.id (executeTool env tc.name args), false)) := by
  constructor
  · intro env name args h m hh hr
    simp only [executeTool, hh, hr]
  · intro env st tc args abs hperm hbr hsem
    unfold processAfterScan
    simp only []
    rw [if_neg (by rw [hperm]; decide), if_neg hbr, if_neg hsem]

/-- Witness for the amended C3: the throwing `read_file` handler of
`envC3` produces the error string, and the execution tail logs `success`. -/
theorem handlerError_behavior_witness :
    executeTool envC3 "read_file" (.obj [("path", .str "x")])
      = "Error executing read_file: ENOENT: no such file" ∧
    (processAfterScan envC3 (AgentState.init [])
        ⟨"call_1", "read_file", JsonV.encode (.obj [("path", .str "x")])⟩
        (.obj [("path", .str "x")]) "/cwd/x").1.auditLog
      = [⟨"read_file", .obj [("path", .str "x")], .success, false⟩] := by
  constructor
  · exact handlerError_behavior.1 envC3 "read_file" (.obj [("path", .str "x")])
      _ "ENOENT: no such file" rfl rfl
  · rw [handlerError_behavior.2 envC3 (AgentState.init [])
      ⟨"call_1", "read_file", JsonV.encode (.obj [("path", .str "x")])⟩
      (.obj [("path", .str "x")]) "/cwd/x" rfl (by decide) (by decide)]
    rfl

end Helios

namespace Helios

/-! ## Claim C5 -/

theorem loopGo_cap (env : Env) (B : Nat) :
    ∀ (f i : Nat) (st : AgentState),
      (∀ n, i + 1 ≤ n → n ≤ i + f →
        (env.respond n).isError = false ∧
        recoverCalls (env.respond n).toolCalls (env.respond n).content ≠ [] ∧
        (∀ tc ∈ recoverCalls (env.respond n).toolCalls (env.respond n).content,
          callWellFormed env tc = true) ∧
        (recoverCalls (env.respond n).toolCalls (env.respond n).content).length ≤ B) →
      (loopGo env f i st).2.2 = .capReached ∧
      (loopGo env f i st).2.1 = i + f ∧
      (loopGo env f i st).1.messages.length ≤ st.messages.length + f * (1 + B) := by
  intro f
  induction f with
  | zero =>
    intro i st h
    exact ⟨rfl, rfl, by
      show st.messages.length ≤ st.messages.length + 0 * (1 + B); omega⟩
  | succ f ih =>
    intro i st h
    obtain ⟨herr, hne, hwf, hlen⟩ := h (i + 1) (by omega) (by omega)
    unfold loopGo
    simp only []
    rw [herr, if_neg (by decide : ¬ (false = true))]
    rw [if_neg (by simpa [List.isEmpty_iff] using hne)]
    obtain ⟨hab, hmlen⟩ := processCalls_wellFormed env _ _ hwf
    rw [hab, if_neg (by decide : ¬ (false = true))]
    obtain ⟨ih1, ih2, ih3⟩ := ih (i + 1) _
      (fun n h1 h2 => h n (by omega) (by omega))
    refine ⟨ih1, by rw [ih2]; omega, ?_⟩
    calc (loopGo env f (i + 1) _).1.messages.length
        ≤ _ := ih3
      _ ≤ st.messages.length + (f + 1) * (1 + B) := by
          rw [hmlen]
          simp [List.length_append]
          have : (f + 1) * (1 + B) = f * (1 + B) + (1 + B) := by ring
          omega

/-- Claim C5: when every provider round yields at least one (well-formed)
tool call, the agent loop performs exactly `N` iterations for a cap of
`N`, then terminates with the max-iterations warning, and the
conversation stays bounded by `1 + N * (1 + B)` new messages for batch
sizes at most `B`. -/
theorem maxIterations_cap (env : Env) (N B : Nat) (u : String) (st0 : AgentState)
    (h : ∀ n, 1 ≤ n → n ≤ N →
      (env.respond n).isError = false ∧
      recoverCalls (env.respond n).toolCalls (env.respond n).content ≠ [] ∧
      (∀ tc ∈ recoverCalls (env.respond n).toolCalls (env.respond n).content,
        callWellFormed env tc = true) ∧
      (recoverCalls (env.respond n).toolCalls (env.respond n).content).length ≤ B) :
    (runAgentStreaming env N u st0).iterations = N ∧
    (runAgentStreaming env N u st0).maxIterationsWarning = true ∧
    (runAgentStreaming env N u st0).state.messages.length
      ≤ st0.messages.length + 1 + N * (1 + B) := by
  obtain ⟨h1, h2, h3⟩ := loopGo_cap env B N 0
    ({ st0 with messages := st0.messages ++ [{ role := .user, content := some u }] })
    (fun n hn1 hn2 => h n (by omega) (by omega))
  unfold runAgentStreaming
  simp only []
  refine ⟨by rw [h2]; omega, ?_, ?_⟩
  · simp [h1, h2]
  · simpa [List.length_append] using h3

/-- Witness for C5: cap 3, one structured `read_file` call per round —
exactly 3 iterations, warning on, at most 7 messages appended. -/
theorem maxIterations_cap_witness :
    (runAgentStreaming envC5 3 "go" (AgentState.init [])).iterations = 3 ∧
    (runAgentStreaming envC5 3 "go" (AgentState.init [])).maxIterationsWarning = true ∧
    (runAgentStreaming envC5 3 "go" (AgentState.init [])).state.messages.length
      ≤ 0 + 1 + 3 * (1 + 1) :=
  maxIterations_cap envC5 3 1 "go" (AgentState.init [])
    (fun n h1 h2 =>
      ⟨rfl,
       (by decide : recoverCalls
          [⟨"c1", "read_file", JsonV.encode (.obj [("path", .str "x")])⟩] "" ≠ []),
       (by
          intro tc htc
          rw [List.eq_of_mem_singleton
            (show tc ∈ [(⟨"c1", "read_file",
              JsonV.encode (.obj [("path", .str "x")])⟩ : PendingCall)] from htc)]
          decide),
       (by decide : (recoverCalls
          [⟨"c1", "read_file", JsonV.encode (.obj [("path", .str "x")])⟩] "").length ≤ 1)⟩)

end Helios

namespace Helios

/-! ## Claim C6 -/

theorem tails_any_single (l : List Char) (c : Char) :
    (l.tails.any fun t => [c].isPrefixOf t) = true ↔ c ∈ l := by
  induction l with
  | nil => simp [List.isPrefixOf]
  | cons d rest ih =>
    simp only [List.tails_cons, List.any_cons, Bool.or_eq_true, ih, List.mem_cons]
    constructor
    · rintro (h | h)
      · exact Or.inl (by simpa [List.isPrefixOf] using h)
      · exact Or.inr h
    · rintro (h | h)
      · exact Or.inl (by simp [List.isPrefixOf, h])
      · exact Or.inr h

theorem strIncludes_single (s : String) (c : Char) :
    strIncludes s ⟨[c]⟩ = true ↔ c ∈ s.data :=
  tails_any_single s.data c

theorem mem_stripFences1 (fuel : Nat) (l : List Char) (c : Char)
    (h : c ∈ stripFences1 fuel l) : c ∈ l := by
  induction fuel generalizing l with
  | zero => exact h
  | succ fuel ih =>
    cases l with
    | nil => exact h
    | cons d rest =>
      unfold stripFences1 at h
      split_ifs at h with hp
      · have t0 := ih _ h
        split_ifs at t0 with hn
        · have t1 : c ∈ List.dropWhile (fun d => ('a' ≤ lowerC d ∧ lowerC d ≤ 'z' : Bool))
              (List.drop 2 rest) := (List.tail_sublist _).subset t0
          have t2 : c ∈ List.drop 2 rest := (List.dropWhile_sublist _).subset t1
          exact List.mem_cons_of_mem _ ((List.drop_sublist _ _).subset t2)
        · have t2 : c ∈ List.drop 2 rest := (List.dropWhile_sublist _).subset t0
          exact List.mem_cons_of_mem _ ((List.drop_sublist _ _).subset t2)
      · rcases List.mem_cons.mp h with h | h
        · exact List.mem_cons.mpr (Or.inl h)
        · exact List.mem_cons_of_mem _ (ih _ h)

theorem mem_stripFences2 (fuel : Nat) (l : List Char) (c : Char)
    (h : c ∈ stripFences2 fuel l) : c ∈ l := by
  induction fuel generalizing l with
  | zero => exact h
  | succ fuel ih =>
    cases l with
    | nil => exact h
    | cons d rest =>
      unfold stripFences2 at h
      split_ifs at h with hp
      · exact List.mem_cons_of_mem _ ((List.drop_sublist _ _).subset (ih _ h))
      · rcases List.mem_cons.mp h with h | h
        · exact List.mem_cons.mpr (Or.inl h)
        · exact List.mem_cons_of_mem _ (ih _ h)

theorem findTextCalls_nil (fuel : Nat) (l : List Char) (h : '(' ∉ l) :
    findTextCalls fuel l = [] := by
  induction fuel generalizing l with
  | zero => rfl
  | succ fuel ih =>
    cases l with
    | nil => rfl
    | cons c rest =>
      unfold findTextCalls
      have hrest : '(' ∉ rest := fun hm => h (List.mem_cons_of_mem _ hm)
      split_ifs with hw
      · simp only []
        split
        next r2 heq =>
          exact absurd ((List.dropWhile_sublist _).subset
            (heq ▸ List.mem_cons_self '(' r2)) h
        next hne => exact ih rest hrest
      · exact ih rest hrest

theorem findXmlTags_nil (fuel : Nat) (l : List Char) (h : '<' ∉ l) :
    findXmlTags fuel l = [] := by
  induction fuel generalizing l with
  | zero => rfl
  | succ fuel ih =>
    cases l with
    | nil => rfl
    | cons c rest =>
      unfold findXmlTags
      have hrest : '<' ∉ rest := fun hm => h (List.mem_cons_of_mem _ hm)
      split_ifs with hc
      · exact absurd (hc ▸ List.mem_cons_self c rest) h
      · exact ih rest hrest


theorem findJsonBlocks_nil (fuel : Nat) (l : List Char)
    (h1 : lbrace ∉ l)
    (h2 : ∀ t, t <:+ l → ¬ (("```json".data).isPrefixOf t = true)) :
    findJsonBlocks fuel l = [] := by
  induction fuel generalizing l with
  | zero => rfl
  | succ fuel ih =>
    cases l with
    | nil => rfl
    | cons c rest =>
      unfold findJsonBlocks
      have h1r : lbrace ∉ rest := fun hm => h1 (List.mem_cons_of_mem _ hm)
      have h2r : ∀ t, t <:+ rest → ¬ (("```json".data).isPrefixOf t = true) :=
        fun t ht => h2 t (ht.trans (List.suffix_cons c rest))
      split_ifs with hp hb
      · exact absurd hp (h2 (c :: rest) List.suffix_rfl)
      · exact absurd (hb ▸ List.mem_cons_self c rest) h1
      · exact ih rest h1r h2r

theorem stage1_empty (content : String) (h : strIncludes content "(" = false) :
    stage1 content = [] := by
  have hmem : '(' ∉ content.data := by
    intro hm
    rw [(strIncludes_single content '(').mpr hm] at h
    cases h
  unfold stage1
  simp only []
  rw [findTextCalls_nil _ _ (fun hm => hmem
    (mem_stripFences1 _ _ _ (mem_stripFences2 _ _ _ hm)))]
  rfl

theorem stage2_empty (content : String)
    (hb : strIncludes content ⟨[lbrace]⟩ = false)
    (hj : strIncludes content "```json" = false) :
    stage2 content = [] := by
  have hmem : lbrace ∉ content.data := by
    intro hm
    rw [(strIncludes_single content lbrace).mpr hm] at hb
    cases hb
  have hpre : ∀ t, t <:+ content.data → ¬ (("```json".data).isPrefixOf t = true) := by
    intro t ht hp
    have : ("```json".data).isPrefixOf t = true → strIncludes content "```json" = true := by
      intro hp'
      unfold strIncludes
      rw [List.any_eq_true]
      exact ⟨t, (List.mem_tails t content.data).mpr ht, hp'⟩
    rw [this hp] at hj
    cases hj
  unfold stage2
  simp only []
  rw [findJsonBlocks_nil _ _ hmem hpre]
  rfl

theorem stage3_empty (content : String) (h : strIncludes content "<" = false) :
    stage3 content = [] := by
  have hmem : '<' ∉ content.data := by
    intro hm
    rw [(strIncludes_single content '<').mpr hm] at h
    cases h
  unfold stage3
  simp only []
  rw [findXmlTags_nil _ _ hmem]
  rfl


theorem mem_of_containsStr {l : List String} {a : String} (h : l.contains a = true) :
    a ∈ l := by
  simpa [List.elem_eq_mem] using h

theorem foldl_preserve {α β : Type} (f : List α → β → List α) (P : α → Prop)
    (hf : ∀ acc b, ∀ c ∈ f acc b, c ∈ acc ∨ P c) :
    ∀ (ms : List β) (acc : List α), (∀ c ∈ acc, P c) →
      ∀ c ∈ ms.foldl f acc, P c := by
  intro ms
  induction ms with
  | nil => intro acc h c hc; exact h c hc
  | cons m t ih =>
    intro acc h c hc
    exact ih (f acc m) (fun c' hc' => (hf acc m c' hc').elim (h c') id) c hc

theorem stage1_names (content : String) :
    ∀ c ∈ stage1 content, c.name ∈ toolNames := by
  unfold stage1
  simp only []
  refine foldl_preserve _ (fun (c : PendingCall) => c.name ∈ toolNames) ?_ _ []
    (fun c hc => absurd hc (List.not_mem_nil c))
  intro acc m c hc
  simp only [] at hc
  split_ifs at hc
  all_goals try exact Or.inl hc
  all_goals (
    rcases List.mem_append.mp hc with hc' | hc'
    · exact Or.inl hc'
    · rw [List.eq_of_mem_singleton hc']
      exact Or.inr (mem_of_containsStr (by assumption)))

theorem stage2_names (content : String) :
    ∀ c ∈ stage2 content, c.name ∈ toolNames := by
  unfold stage2
  simp only []
  refine foldl_preserve _ (fun (c : PendingCall) => c.name ∈ toolNames) ?_ _ []
    (fun c hc => absurd hc (List.not_mem_nil c))
  intro acc b c hc
  simp only [] at hc
  split at hc
  · exact Or.inl hc
  · split at hc
    next tn =>
      split_ifs at hc
      all_goals try exact Or.inl hc
      all_goals (
        rcases List.mem_append.mp hc with hc' | hc'
        · exact Or.inl hc'
        · rw [List.eq_of_mem_singleton hc']
          exact Or.inr (mem_of_containsStr (by assumption)))
    next => exact Or.inl hc

theorem stage3_names (content : String) :
    ∀ c ∈ stage3 content, c.name ∈ toolNames := by
  unfold stage3
  simp only []
  refine foldl_preserve _ (fun (c : PendingCall) => c.name ∈ toolNames) ?_ _ []
    (fun c hc => absurd hc (List.not_mem_nil c))
  intro acc t c hc
  simp only [] at hc
  split_ifs at hc
  all_goals try exact Or.inl hc
  all_goals (
    rcases List.mem_append.mp hc with hc' | hc'
    · exact Or.inl hc'
    · rw [List.eq_of_mem_singleton hc']
      exact Or.inr (mem_of_containsStr (by assumption)))


theorem bool_eq_false_of_ne_true {b : Bool} (h : ¬ b = true) : b = false := by
  cases b
  · rfl
  · exact absurd rfl h

/-- Claim C6: the fallback parsing chain runs only when the provider
returned zero structured tool calls; the stages run in the fixed order
textual, then JSON, then XML; the first stage that synthesizes at least
one call wins (later stages are not attempted); and every synthesized
call carries a recognized local tool name. -/
theorem fallbackChain_spec (structured : List PendingCall) (content : String) :
    (structured ≠ [] → recoverCalls structured content = structured) ∧
    (recoverCalls [] content
      = if stage1 content ≠ [] then stage1 content
        else if stage2 content ≠ [] then stage2 content
        else stage3 content) ∧
    (∀ c ∈ recoverCalls [] content, c.name ∈ toolNames) := by
  have hp1 : (if (([] : List PendingCall).isEmpty ∧ strIncludes content "(") then
        ([] : List PendingCall) ++ stage1 content else []) = stage1 content := by
    by_cases hinc : strIncludes content "(" = true
    · rw [if_pos ⟨rfl, hinc⟩, List.nil_append]
    · rw [if_neg (fun hh => hinc hh.2)]
      exact (stage1_empty content (by rwa [Bool.not_eq_true] at hinc)).symm
  have key2 : recoverCalls [] content
      = if stage1 content ≠ [] then stage1 content
        else if stage2 content ≠ [] then stage2 content
        else stage3 content := by
    unfold recoverCalls
    simp only []
    rw [hp1]
    by_cases hs1 : stage1 content = []
    · rw [hs1]
      have hp2 : (if (([] : List PendingCall).isEmpty ∧
            (strIncludes content ⟨[lbrace]⟩ ∨ strIncludes content "```json")) then
            ([] : List PendingCall) ++ stage2 content else []) = stage2 content := by
        by_cases hj : (strIncludes content ⟨[lbrace]⟩ = true ∨
            strIncludes content "```json" = true)
        · rw [if_pos ⟨rfl, hj⟩, List.nil_append]
        · push_neg at hj
          rw [if_neg (fun hh => hh.2.elim (fun ha => hj.1 ha) (fun hb => hj.2 hb))]
          exact (stage2_empty content (bool_eq_false_of_ne_true hj.1)
            (bool_eq_false_of_ne_true hj.2)).symm
      rw [hp2]
      by_cases hs2 : stage2 content = []
      · rw [hs2]
        have hp3 : (if (([] : List PendingCall).isEmpty ∧ strIncludes content "<") then
              ([] : List PendingCall) ++ stage3 content else []) = stage3 content := by
          by_cases hinc : strIncludes content "<" = true
          · rw [if_pos ⟨rfl, hinc⟩, List.nil_append]
          · rw [if_neg (fun hh => hinc hh.2)]
            exact (stage3_empty content (by rwa [Bool.not_eq_true] at hinc)).symm
        rw [hp3]
        rw [if_neg (fun hne => hne rfl), if_neg (fun hne => hne rfl)]
      · have hie : ¬ ((stage2 content).isEmpty = true ∧ strIncludes content "<" = true) :=
          fun hh => hs2 (List.isEmpty_iff.mp hh.1)
        rw [if_neg hie, if_neg (fun hne => hne rfl), if_pos hs2]
    · have hie : ∀ (p : Prop), ¬ ((stage1 content).isEmpty = true ∧ p) :=
        fun p hh => hs1 (List.isEmpty_iff.mp hh.1)
      rw [if_neg (hie _), if_neg (hie _), if_pos hs1]
  refine ⟨?_, key2, ?_⟩
  · intro hne
    unfold recoverCalls
    simp only []
    have hie : ∀ (p : Prop), ¬ (structured.isEmpty = true ∧ p) :=
      fun p hh => hne (List.isEmpty_iff.mp hh.1)
    rw [if_neg (hie _), if_neg (hie _), if_neg (hie _)]
  · rw [key2]
    split_ifs with h1 h2
    · exact stage1_names content
    · exact stage2_names content
    · exact stage3_names content

/-- Witness for C6: structured calls suppress the fallback even when the
text contains a parsable call, and a content where stage 1 recognizes a
name but synthesizes nothing falls through to the JSON stage. -/
theorem fallbackChain_spec_witness :
    recoverCalls [⟨"s1", "read_file", "\x7b\x7d"⟩] "write_file(\"a\", \"b\")"
      = [⟨"s1", "read_file", "\x7b\x7d"⟩] ∧
    recoverCalls [] "git_status() \x7b\"action\":\"write_file\",\"path\":\"a\",\"content\":\"b\"\x7d"
      = stage2 "git_status() \x7b\"action\":\"write_file\",\"path\":\"a\",\"content\":\"b\"\x7d" ∧
    stage2 "git_status() \x7b\"action\":\"write_file\",\"path\":\"a\",\"content\":\"b\"\x7d"
      = [⟨"fallback_json_0", "write_file",
          "\x7b\"action\":\"write_file\",\"path\":\"a\",\"content\":\"b\"\x7d"⟩] := by
  refine ⟨(fallbackChain_spec [⟨"s1", "read_file", "\x7b\x7d"⟩]
      "write_file(\"a\", \"b\")").1 (by decide), ?_, rfl⟩
  rw [(fallbackChain_spec []
      "git_status() \x7b\"action\":\"write_file\",\"path\":\"a\",\"content\":\"b\"\x7d").2.1]
  rw [if_neg (by decide), if_pos (by decide)]


end Helios
